import Mathlib

/-!
# Forum chat hub: a shallow embedding of `pkg/wsserver`

The hub of `server.go` and the per-connection tasks of `handler.go` are
embedded as pure functions over an explicit state.

* A `*Client` is a pointer; pointers are natural numbers and the objects they
  point to live in `Hub.heap`.
* A buffered Go channel is a record of its capacity, the messages sent and not
  yet received, and its closed flag.  Closing a closed channel and sending on a
  closed channel raise a Go runtime panic, which is the `Except.error` result.
* `Hub.clients` is the key set of the Go map `map[*Client]bool` (every stored
  value is `true`), kept as a duplicate-free list.
-/

namespace Forum

/-! ## Data model (`internal/models/forum.go`, `pkg/wsserver/server.go`) -/

/-- The record `models.Post`; `CreateAt` is the timestamp as a number. -/
structure Post where
  ID : Int
  Content : String
  CreateAt : Int
  ThreadID : Int
  UserID : Int
deriving DecidableEq, Repr

/-- Go runtime panics that channel operations can raise. -/
inductive Panic where
  | sendOnClosed
  | closeOfClosed
deriving DecidableEq, Repr

/-- State of a buffered channel `chan models.Post`. -/
structure Chan where
  cap : Nat
  buf : List Post
  closed : Bool
deriving DecidableEq, Repr

/-- The result of `make(chan models.Post, n)`. -/
def Chan.make (n : Nat) : Chan :=
  { cap := n, buf := [], closed := false }

/-- The builtin `close(ch)`: panics when the channel is already closed. -/
def Chan.close (ch : Chan) : Except Panic Chan :=
  if ch.closed then .error .closeOfClosed
  else .ok { ch with closed := true }

/-- The statement `select { case ch <- m: default: }`.  `some ch1` is the
channel after the send was taken, `none` is the `default` branch (buffer
full); a send on a closed channel panics. -/
def Chan.trySend (ch : Chan) (m : Post) : Except Panic (Option Chan) :=
  if ch.closed then .error .sendOnClosed
  else if ch.buf.length < ch.cap then .ok (some { ch with buf := ch.buf ++ [m] })
  else .ok none

/-- The struct `Client`: transport handle, outbound queue, bound thread. -/
structure Client where
  conn : Nat
  send : Chan
  threadID : Int
deriving DecidableEq, Repr

/-- A `*Client`. -/
abbrev ClientPtr := Nat

/-- The struct `Hub` as far as `Run` uses it: the registry `clients` and the
client objects its keys point to. -/
structure Hub where
  clients : List ClientPtr
  nodup : clients.Nodup
  heap : ClientPtr → Client

/-- `NewHub`: an empty registry; `heap` holds the client objects that
`ThreadChat` allocates. -/
def NewHub (heap : ClientPtr → Client) : Hub :=
  { clients := [], nodup := List.nodup_nil, heap := heap }

/-- Store a new channel state in the `send` field target of client `c`. -/
def Hub.setSend (h : Hub) (c : ClientPtr) (ch : Chan) : Hub :=
  { h with heap := fun p => if p = c then { h.heap c with send := ch } else h.heap p }

/-- The map update `h.clients[client] = true`. -/
def Hub.insertClient (h : Hub) (c : ClientPtr) : Hub :=
  { h with clients := h.clients.insert c, nodup := h.nodup.insert }

/-- The builtin `delete(h.clients, client)`. -/
def Hub.deleteClient (h : Hub) (c : ClientPtr) : Hub :=
  { h with clients := h.clients.erase c, nodup := h.nodup.erase c }

/-! ## `Hub.Run` -/

/-- The events `Run` selects on: a receive from `h.register`,
`h.unregister` or `h.chat`. -/
inductive Event where
  | register (c : ClientPtr)
  | unregister (c : ClientPtr)
  | chat (m : Post)
deriving DecidableEq, Repr

/-- The case `client := <-h.register`. -/
def Hub.onRegister (h : Hub) (c : ClientPtr) : Except Panic Hub :=
  .ok (h.insertClient c)

/-- The case `client := <-h.unregister`. -/
def Hub.onUnregister (h : Hub) (c : ClientPtr) : Except Panic Hub :=
  if c ∈ h.clients then
    match (h.heap c).send.close with
    | .error e => .error e
    | .ok ch => .ok ((h.setSend c ch).deleteClient c)
  else .ok h

/-- One iteration of the body of `for client := range h.clients` in the
broadcast case. -/
def Hub.chatVisit (m : Post) (h : Hub) (c : ClientPtr) : Except Panic Hub :=
  if (h.heap c).threadID = m.ThreadID then
    match (h.heap c).send.trySend m with
    | .error e => .error e
    | .ok (some ch) => .ok (h.setSend c ch)
    | .ok none =>
      match (h.heap c).send.close with
      | .error e => .error e
      | .ok ch => .ok ((h.setSend c ch).deleteClient c)
  else .ok h

/-- The loop `for client := range h.clients` visiting the keys in the given
order.  Only the key being visited is ever deleted, so every key present at
the start is visited exactly once. -/
def Hub.chatOver (m : Post) : List ClientPtr → Hub → Except Panic Hub
  | [], h => .ok h
  | c :: cs, h =>
    match h.chatVisit m c with
    | .error e => .error e
    | .ok h1 => Hub.chatOver m cs h1

/-- The case `message := <-h.chat`; the registry is visited in the order of
its key list. -/
def Hub.onChat (h : Hub) (m : Post) : Except Panic Hub :=
  Hub.chatOver m h.clients h

/-- One turn of the `for { select { ... } }` loop of `Run`. -/
def Hub.step (h : Hub) : Event → Except Panic Hub
  | .register c => h.onRegister c
  | .unregister c => h.onUnregister c
  | .chat m => h.onChat m

/-- The loop of `Run` over the events it receives, in the order received. -/
def Hub.Run : Hub → List Event → Except Panic Hub
  | h, [] => .ok h
  | h, e :: es =>
    match h.step e with
    | .error p => .error p
    | .ok h1 => Hub.Run h1 es

/-- The queue of client `c` is open. -/
def Hub.isOpen (h : Hub) (c : ClientPtr) : Prop :=
  (h.heap c).send.closed = false

/-- Every registered connection has an open queue. -/
def Hub.RegisteredOpen (h : Hub) : Prop :=
  ∀ c ∈ h.clients, h.isOpen c

/-! ## The tasks of `Hub.ThreadChat` (`pkg/wsserver/handler.go`) -/

/-- The interface `usecase.PostUseCase` as far as `ThreadChat` calls it.  The
use case owns storage, so every call takes and returns the storage state. -/
structure PostUseCase (σ : Type) where
  CreatePost : Post → σ → Except String Post × σ
  GetChatPosts : Int → σ → Except String (List Post) × σ

/-- The websocket frame types `ThreadChat` writes: `websocket.TextMessage`
and `websocket.CloseMessage`. -/
inductive MessageType where
  | text
  | close
deriving DecidableEq, Repr

/-- The three tasks `ThreadChat` starts, in the order of its `go` statements. -/
inductive Task where
  | replay
  | reader
  | writer
deriving DecidableEq, Repr

/-- What `ThreadChat` or one of its tasks does to its surroundings, in program
order. -/
inductive Action where
  /-- The call `hub.UseCase.CreatePost(post)`. -/
  | createPost (post : Post)
  /-- The call `conn.WriteJSON(map[string]string{key: value})`. -/
  | writeJSON (key value : String)
  /-- The send `hub.chat <- createdPost`. -/
  | submitChat (post : Post)
  /-- The send `hub.unregister <- client`. -/
  | submitUnregister (c : ClientPtr)
  /-- The call `conn.Close()`. -/
  | connClose (conn : Nat)
  /-- The call `conn.WriteMessage(messageType, data)`. -/
  | writeMessage (messageType : MessageType) (data : String)
  /-- The call `c.JSON(status, gin.H{"error": message})`. -/
  | respondJSON (status : Nat) (message : String)
  /-- The send `hub.register <- client`. -/
  | submitRegister (c : ClientPtr)
  /-- A `go func()` statement starting one of the three tasks. -/
  | start (t : Task)
deriving DecidableEq, Repr

/-- The client that `ThreadChat` allocates for an upgraded connection. -/
def newClient (conn : Nat) (id : Int) : Client :=
  { conn := conn, send := Chan.make 256, threadID := id }

/-- The loop `for _, post := range posts` of the replay task, acting on the
queue `client.send` while no other task touches that queue.  Returns the
queue it leaves and the actions of the `default` branch. -/
def replayLoop (c : ClientPtr) (conn : Nat) : List Post → Chan → Except Panic (Chan × List Action)
  | [], ch => .ok (ch, [])
  | post :: rest, ch =>
    match ch.trySend post with
    | .error e => .error e
    | .ok (some ch1) => replayLoop c conn rest ch1
    | .ok none => .ok (ch, [.submitUnregister c, .connClose conn])

/-- The replay task: the first `go func()` of `ThreadChat`. -/
def replayTask {σ : Type} (uc : PostUseCase σ) (id : Int) (c : ClientPtr) (conn : Nat)
    (ch : Chan) (db : σ) : Except Panic (Chan × List Action) × σ :=
  match uc.GetChatPosts id db with
  | (.error _, db1) => (.ok (ch, []), db1)
  | (.ok posts, db1) => (replayLoop c conn posts ch, db1)

/-- The assignment `post.ThreadID = id`. -/
def stampThread (id : Int) (post : Post) : Post :=
  { post with ThreadID := id }

/-- The Reader task: the second `go func()` of `ThreadChat`.  `reads` are the
results of the successive calls of `conn.ReadMessage()`; `decode` is
`json.Unmarshal` into a fresh `models.Post`.  When `reads` is used up the task
is waiting in `ReadMessage`; the deferred function runs once a read fails. -/
def readerTask {σ : Type} (decode : String → Except String Post) (uc : PostUseCase σ)
    (id : Int) (c : ClientPtr) (conn : Nat) :
    List (Except String String) → σ → List Action × σ
  | [], db => ([], db)
  | .error _ :: _, db => ([.submitUnregister c, .connClose conn], db)
  | .ok message :: rest, db =>
    match decode message with
    | .error _ =>
      let r := readerTask decode uc id c conn rest db
      (.writeJSON "error" "invalid message format" :: r.1, r.2)
    | .ok decoded =>
      let post := stampThread id decoded
      match uc.CreatePost post db with
      | (.error _, db1) =>
        let r := readerTask decode uc id c conn rest db1
        (.createPost post :: .writeJSON "error" "failed to create post" :: r.1, r.2)
      | (.ok createdPost, db1) =>
        let r := readerTask decode uc id c conn rest db1
        (.createPost post :: .submitChat createdPost :: r.1, r.2)

/-- The posts handed to `CreatePost`, in call order. -/
def createPostArgs : List Action → List Post
  | [] => []
  | .createPost p :: rest => p :: createPostArgs rest
  | _ :: rest => createPostArgs rest

/-- The frames read before the first failing `ReadMessage`. -/
def framesRead : List (Except String String) → List String
  | [] => []
  | .error _ :: _ => []
  | .ok message :: rest => message :: framesRead rest

/-- The payloads among the frames that decode as a chat message. -/
def decodedPosts (decode : String → Except String Post) : List String → List Post
  | [] => []
  | message :: rest =>
    match decode message with
    | .error _ => decodedPosts decode rest
    | .ok post => post :: decodedPosts decode rest

/-- The body of `ThreadChat` up to its `go` statements.  `upgrade` is the
result of `upgrader.Upgrade` (the transport handle), `atoi` is `strconv.Atoi`,
`param` is `c.Param("id")` and `c` is the address of the client it allocates.
Returns its actions and the client object it allocated, if any. -/
def ThreadChat (upgrade : Except String Nat) (atoi : String → Except String Int)
    (param : String) (c : ClientPtr) : List Action × Option Client :=
  match upgrade with
  | .error err => ([.respondJSON 500 err], none)
  | .ok conn =>
    match atoi param with
    | .error _ => ([.writeMessage .close "Invalid thread ID", .connClose conn], none)
    | .ok id =>
      ([.submitRegister c, .start .replay, .start .reader, .start .writer],
        some (newClient conn id))

/-- Whether a task has returned or is blocked in a channel or transport
operation. -/
inductive TaskStatus where
  | done
  | waiting
deriving DecidableEq, Repr

/-- The loop `for message := range client.send` of the Writer task over the
queue contents `buf`, while no other task touches the queue.  `marshal` is
`json.Marshal`, `write n` is the result of the `n`-th call of
`conn.WriteMessage`, `closed` is the closed flag of the queue.  Returns the
actions (the deferred `conn.Close()` included), the status of the task and the
messages left in the queue. -/
def writerLoop (marshal : Post → Except String String) (write : Nat → Except String Unit)
    (conn : Nat) (closed : Bool) : List Post → Nat → List Action × TaskStatus × List Post
  | [], _ => if closed then ([.connClose conn], .done, []) else ([], .waiting, [])
  | message :: rest, n =>
    match marshal message with
    | .error _ => writerLoop marshal write conn closed rest n
    | .ok postBytes =>
      match write n with
      | .error _ => ([.writeMessage .text postBytes, .connClose conn], .done, rest)
      | .ok _ =>
        let r := writerLoop marshal write conn closed rest (n + 1)
        (.writeMessage .text postBytes :: r.1, r.2.1, r.2.2)

/-- The Writer task: the third `go func()` of `ThreadChat`. -/
def writerTask (marshal : Post → Except String String) (write : Nat → Except String Unit)
    (conn : Nat) (ch : Chan) : List Action × TaskStatus × List Post :=
  writerLoop marshal write conn ch.closed ch.buf 0

/-- The frames the Writer has to write for the queue contents `buf`: the
serialized messages, in queue order, leaving out those `json.Marshal`
rejects. -/
def marshalled (marshal : Post → Except String String) : List Post → List String
  | [] => []
  | message :: rest =>
    match marshal message with
    | .error _ => marshalled marshal rest
    | .ok postBytes => postBytes :: marshalled marshal rest

/-- The events the hub receives from a sequence of actions: the sends on
`hub.register`, `hub.unregister` and `hub.chat`. -/
def hubEvents : List Action → List Event
  | [] => []
  | .submitRegister c :: rest => .register c :: hubEvents rest
  | .submitUnregister c :: rest => .unregister c :: hubEvents rest
  | .submitChat post :: rest => .chat post :: hubEvents rest
  | _ :: rest => hubEvents rest

/-- One iteration of the replay loop for client `c` on the hub's client
objects: the `select` with `client.send <- post` and a `default` branch.  In
the `default` branch the queue is left as it is (the task then submits
unregister, which reaches the hub as an event of its own). -/
def Hub.replaySend (h : Hub) (c : ClientPtr) (post : Post) : Except Panic Hub :=
  match (h.heap c).send.trySend post with
  | .error e => .error e
  | .ok (some ch) => .ok (h.setSend c ch)
  | .ok none => .ok h

/-- One receive `message := <-client.send` of the Writer of client `c`: the
head of the queue is taken, if there is one. -/
def Hub.writerRecv (h : Hub) (c : ClientPtr) : Hub :=
  h.setSend c { (h.heap c).send with buf := (h.heap c).send.buf.tail }

/-- The steps that change the hub's registry or a client queue: an event
processed by `Run`, an iteration of a replay loop, a receive of a Writer. -/
inductive SysStep where
  | hub (e : Event)
  | replaySend (c : ClientPtr) (post : Post)
  | writerRecv (c : ClientPtr)
deriving DecidableEq, Repr

/-- One step of the system. -/
def Hub.sysStep (h : Hub) : SysStep → Except Panic Hub
  | .hub e => h.step e
  | .replaySend c post => h.replaySend c post
  | .writerRecv c => .ok (h.writerRecv c)

/-- A sequence of steps of the system, in the order they happen. -/
def Hub.sysRun : Hub → List SysStep → Except Panic Hub
  | h, [] => .ok h
  | h, s :: ss =>
    match h.sysStep s with
    | .error p => .error p
    | .ok h1 => Hub.sysRun h1 ss

/-! ## Use cases and repository (`internal/usecase`, `internal/repository`,
`internal/transport/gin`) -/

/-- The record `models.Thread`. -/
structure Thread where
  ID : Int
  Title : String
  Content : String
  CreateAt : Int
  UserID : Int
deriving DecidableEq, Repr

/-- The record `models.Chat`. -/
structure Chat where
  ThreadID : Int
  UserID : Int
  PostID : Int
deriving DecidableEq, Repr

/-- The interface `models.User` with its three implementations. -/
inductive Entity where
  | thread (t : Thread)
  | post (p : Post)
  | chat (c : Chat)
deriving DecidableEq, Repr

/-- The methods `USER_ID()` of `Thread`, `Post` and `Chat`. -/
def Entity.USER_ID : Entity → Int
  | .thread t => t.UserID
  | .post p => p.UserID
  | .chat c => c.UserID

/-- A Go `error` value: `none` is `nil`, `some msg` an error with that text. -/
abbrev GoError := Option String

/-- The zero value `models.Post{}`. -/
def zeroPost : Post :=
  { ID := 0, Content := "", CreateAt := 0, ThreadID := 0, UserID := 0 }

/-- The zero value `models.Thread{}`. -/
def zeroThread : Thread :=
  { ID := 0, Title := "", Content := "", CreateAt := 0, UserID := 0 }

/-- The builtin `len` on a Go string: its length in bytes. -/
def len (s : String) : Nat :=
  s.utf8ByteSize

/-- The interface `repository.ForumRepository` as far as the use cases below
call it; every method takes and returns the storage state, and returns the
Go pair of value and error. -/
structure ForumRepository (σ : Type) where
  GetThreadByID : Int → σ → (Thread × GoError) × σ
  CreateThread : Thread → σ → (Thread × GoError) × σ
  DeleteThreadByID : Int → σ → GoError × σ
  CreatePost : Post → σ → (Post × GoError) × σ
  DeletePostByID : Int → σ → GoError × σ
  LinkPostToChat : Chat → σ → GoError × σ
  CheckUserByID : Entity → Int → σ → (Bool × GoError) × σ
  GetPostByID : Int → σ → (Post × GoError) × σ
  EditThread : Thread → Int → σ → GoError × σ

/-- A call of a repository method, with its arguments. -/
inductive RepoCall where
  | GetThreadByID (id : Int)
  | CreateThread (thread : Thread)
  | DeleteThreadByID (id : Int)
  | CreatePost (post : Post)
  | DeletePostByID (id : Int)
  | LinkPostToChat (chat : Chat)
  | CheckUserByID (any : Entity) (id : Int)
  | GetPostByID (id : Int)
  | EditThread (thread : Thread) (userID : Int)
deriving DecidableEq, Repr

/-- The method `PUseCase.CreatePost`: the returned pair, the repository calls
made in order, and the storage state left. -/
def PUseCase.CreatePost {σ : Type} (repo : ForumRepository σ) (post : Post) (db : σ) :
    (Post × GoError) × List RepoCall × σ :=
  if post.Content = "" ∨ len post.Content > 5000 then
    ((zeroPost, some "Недопустимый размер описания! Описание == 0 || > 5000"), [], db)
  else
    match repo.CreatePost post db with
    | ((_, some err), db1) => ((zeroPost, some err), [.CreatePost post], db1)
    | ((createdPost, none), db1) =>
      let chat : Chat :=
        { ThreadID := post.ThreadID, UserID := post.UserID, PostID := createdPost.ID }
      match repo.LinkPostToChat chat db1 with
      | (some err, db2) =>
        ((zeroPost, some ("Ошибка создания поста в чат: " ++ err)),
          [.CreatePost post, .LinkPostToChat chat], db2)
      | (none, db2) =>
        ((createdPost, none), [.CreatePost post, .LinkPostToChat chat], db2)

/-- The method `PUseCase.DeletePostByID`.  `fmt.Errorf` with `%w` of a nil
error still returns a non-nil error. -/
def PUseCase.DeletePostByID {σ : Type} (repo : ForumRepository σ) (id userID : Int) (db : σ) :
    GoError × List RepoCall × σ :=
  match repo.GetPostByID id db with
  | ((_, some err), db1) => (some err, [.GetPostByID id], db1)
  | ((post, none), db1) =>
    match repo.CheckUserByID (.post post) userID db1 with
    | ((valid, err), db2) =>
      if !valid || err.isSome then
        (some ("Нет прав: " ++ err.getD "%!w(<nil>)"),
          [.GetPostByID id, .CheckUserByID (.post post) userID], db2)
      else
        match repo.DeletePostByID id db2 with
        | (err1, db3) =>
          (err1, [.GetPostByID id, .CheckUserByID (.post post) userID, .DeletePostByID id],
            db3)

/-- The method `TUseCase.CreateThread`. -/
def TUseCase.CreateThread {σ : Type} (repo : ForumRepository σ) (thread : Thread) (db : σ) :
    (Thread × GoError) × List RepoCall × σ :=
  if thread.Content = "" ∨ len thread.Content > 5000 then
    ((zeroThread, some "Недопустимый размер описания! Описание == 0 || > 5000"), [], db)
  else if thread.Title = "" ∨ len thread.Title > 500 then
    ((zeroThread, some "Недопустимый размер заголовка! Заголовк == 0 || > 1000"), [], db)
  else
    match repo.CreateThread thread db with
    | ((_, some err), db1) => ((zeroThread, some err), [.CreateThread thread], db1)
    | ((createdThread, none), db1) => ((createdThread, none), [.CreateThread thread], db1)

/-- The method `TUseCase.DeleteThreadByID`; `f.CheckUserByID` forwards to the
repository. -/
def TUseCase.DeleteThreadByID {σ : Type} (repo : ForumRepository σ) (id userID : Int)
    (db : σ) : GoError × List RepoCall × σ :=
  match repo.GetThreadByID id db with
  | ((_, some err), db1) => (some err, [.GetThreadByID id], db1)
  | ((thread, none), db1) =>
    match repo.CheckUserByID (.thread thread) userID db1 with
    | ((valid, err), db2) =>
      if !valid || err.isSome then
        (if !valid then some "Нет прав доступа" else some "Нет прав доступа, тк ошибка",
          [.GetThreadByID id, .CheckUserByID (.thread thread) userID], db2)
      else
        match repo.DeleteThreadByID id db2 with
        | (err1, db3) =>
          (err1,
            [.GetThreadByID id, .CheckUserByID (.thread thread) userID, .DeleteThreadByID id],
            db3)

/-- The method `TUseCase.EditThread`: it forwards to the repository. -/
def TUseCase.EditThread {σ : Type} (repo : ForumRepository σ) (thread : Thread)
    (userID : Int) (db : σ) : GoError × σ :=
  repo.EditThread thread userID db

/-- The row of the table `users` that `CheckUserByID` scans. -/
structure UserRow where
  ID : Int
  Name : String
  Email : String
  Role : String
deriving DecidableEq, Repr

/-- The struct `forumRepository`: its database handle, given by the results of
the two statements modelled here.  `queryUser id` is
`QueryRow(SELECT id, name, email, role FROM users WHERE id = $1).Scan`;
`execEditThread` is the `Exec` of the `UPDATE threads` statement followed by
`RowsAffected`. -/
structure forumRepository (σ : Type) where
  queryUser : Int → σ → Except String UserRow
  execEditThread : Thread → σ → Except String Nat × σ

/-- The method `forumRepository.CheckUserByID`. -/
def forumRepository.CheckUserByID {σ : Type} (f : forumRepository σ) (any : Entity)
    (id : Int) (db : σ) : Bool × GoError :=
  match f.queryUser id db with
  | .error err => (false, some err)
  | .ok user =>
    if user.Role = "admin" then (true, none)
    else if user.ID ≠ any.USER_ID then
      (false, some ("Нет прав: " ++ toString user.ID ++ " " ++ toString any.USER_ID ++ " " ++
        user.Role))
    else (true, none)

/-- The method `forumRepository.EditThread`. -/
def forumRepository.EditThread {σ : Type} (f : forumRepository σ) (thread : Thread)
    (userID : Int) (db : σ) : GoError × σ :=
  match f.CheckUserByID (.thread thread) userID db with
  | (_, some err) => (some ("ошибка проверки прав: " ++ err), db)
  | (valid, none) =>
    if !valid then (some "нет прав на редактирование", db)
    else
      match f.execEditThread thread db with
      | (.error err, db1) => (some err, db1)
      | (.ok affected, db1) =>
        if affected = 0 then (some "sql: no rows in result set", db1) else (none, db1)

/-- A repository whose `EditThread` and `CheckUserByID` are the methods of
`forumRepository` over the handle `f`; the other methods are those of
`others`. -/
def forumRepository.asInterface {σ : Type} (f : forumRepository σ)
    (others : ForumRepository σ) : ForumRepository σ :=
  { others with
    EditThread := fun thread userID db => f.EditThread thread userID db,
    CheckUserByID := fun any id db => (f.CheckUserByID any id db, db) }

/-- What the gin context holds under a key. -/
inductive CtxValue where
  | int (n : Int)
  | other
deriving DecidableEq, Repr

/-- The handler `ForumHandler.EditThread`.  `body` is the result of
`c.ShouldBindJSON(&thread)`, `userID` the result of `c.Get("userID")`.
Returns the HTTP status it responds with and the storage state left. -/
def ForumHandler.EditThread {σ : Type} (repo : ForumRepository σ)
    (body : Except String Thread) (userID : Option CtxValue) (db : σ) : Nat × σ :=
  match body with
  | .error _ => (400, db)
  | .ok thread =>
    match userID with
    | none => (401, db)
    | some .other => (500, db)
    | some (.int uid) =>
      match TUseCase.EditThread repo thread uid db with
      | (some _, db1) => (403, db1)
      | (none, db1) => (200, db1)

/-- The tables `users` and `threads` of the database. -/
structure Tables where
  users : List UserRow
  threads : List Thread
deriving DecidableEq, Repr

/-- A database handle over `Tables` that never fails: the `SELECT` returns the
first user row with the id or `sql.ErrNoRows`, the `UPDATE` sets title,
content and create_at of the thread rows with the id and reports how many
rows it changed. -/
def tablesHandle : forumRepository Tables :=
  { queryUser := fun id db =>
      match db.users.find? (fun u => u.ID = id) with
      | some u => .ok u
      | none => .error "sql: no rows in result set",
    execEditThread := fun thread db =>
      (.ok (db.threads.filter (fun t => t.ID = thread.ID)).length,
        { db with threads := db.threads.map (fun t =>
            if t.ID = thread.ID then
              { t with Title := thread.Title, Content := thread.Content,
                       CreateAt := thread.CreateAt }
            else t) }) }

/-! ## Vocabulary of the registry claims -/

/-- The queue of the registered client `c` is filled to capacity when the
broadcast of `m` is processed in state `h`. -/
def Hub.overflows (h : Hub) (m : Post) (c : ClientPtr) : Prop :=
  c ∈ h.clients ∧ (h.heap c).threadID = m.ThreadID ∧
    (h.heap c).send.cap ≤ (h.heap c).send.buf.length

instance (h : Hub) (m : Post) (c : ClientPtr) : Decidable (h.overflows m c) := by
  unfold Hub.overflows
  infer_instance

/-- Processing event `e` in state `h` deregisters `c`: it is `unregister(c)`
or a broadcast that finds the queue of `c` full. -/
def Hub.deregisters (h : Hub) (c : ClientPtr) : Event → Prop
  | .register _ => False
  | .unregister c1 => c1 = c
  | .chat m => h.overflows m c

/-- In the event sequence `es`, run from the empty hub over the client
objects `heap`, the client `c` has been registered and no later event
deregistered it. -/
def RegisteredNotDeregistered (heap : ClientPtr → Client) (es : List Event)
    (c : ClientPtr) : Prop :=
  ∃ pre post, es = pre ++ Event.register c :: post ∧
    ∀ post1 e post2, post = post1 ++ e :: post2 →
      ∀ h1, Hub.Run (NewHub heap) (pre ++ Event.register c :: post1) = .ok h1 →
        ¬ h1.deregisters c e

/-- The clients registered by an event sequence, in order. -/
def registrations : List Event → List ClientPtr
  | [] => []
  | .register c :: es => c :: registrations es
  | _ :: es => registrations es

/-! ## Sample states -/

/-- A chat message of thread 7. -/
def samplePost : Post :=
  { ID := 1, Content := "hi", CreateAt := 0, ThreadID := 7, UserID := 5 }

/-- Fresh clients as `ThreadChat` allocates them: clients 0 and 1 are bound to
thread 7, every other client to thread 8. -/
def sampleHeap : ClientPtr → Client :=
  fun p => newClient p (if p < 2 then 7 else 8)

/-- Clients 0, 1 and 2 registered, all queues empty. -/
def sampleHub : Hub :=
  { clients := [0, 1, 2], nodup := by decide, heap := sampleHeap }

/-- Clients 0 and 1 registered on thread 7; the queue of client 0 holds 256
messages, the queue of client 1 is empty. -/
def fullHub : Hub :=
  { clients := [0, 1], nodup := by decide,
    heap := fun p =>
      { conn := p,
        send := { cap := 256, buf := if p = 0 then List.replicate 256 samplePost else [],
                  closed := false },
        threadID := 7 } }

/-- A run of hub events: two registrations on thread 7, a broadcast,
`unregister(0)` twice, another broadcast. -/
def sampleEvents : List Event :=
  [.register 0, .register 1, .chat samplePost, .unregister 0, .unregister 0,
    .chat samplePost]

/-- A use case over no storage whose every thread holds the history `posts`;
`CreatePost` returns the post it is given. -/
def historyUseCase (posts : List Post) : PostUseCase Unit :=
  { CreatePost := fun post db => (.ok post, db),
    GetChatPosts := fun _ db => (.ok posts, db) }

/-- A history of 257 persisted messages with the ids 0 to 256. -/
def longHistory : List Post :=
  (List.range 257).map (fun (i : Nat) => { samplePost with ID := Int.ofNat i })

/-- A history of two persisted messages. -/
def shortHistory : List Post :=
  [samplePost, { samplePost with ID := 2, Content := "there" }]

/-- A use case whose storage state is the last id given out: `CreatePost`
persists the post under the next id. -/
def sampleUseCase : PostUseCase Int :=
  { CreatePost := fun post db => (.ok { post with ID := db + 1 }, db + 1),
    GetChatPosts := fun _ db => (.ok [], db) }

/-- A decoder that accepts the one frame `hi`, standing for the payload with
content `hi`, thread_id 999 and user_id 5, and rejects every other frame. -/
def sampleDecode : String → Except String Post :=
  fun message =>
    if message = "hi" then
      .ok { ID := 0, Content := "hi", CreateAt := 0, ThreadID := 999, UserID := 5 }
    else .error "invalid character"

/-- A use case whose storage rejects every `CreatePost`. -/
def failingUseCase : PostUseCase Unit :=
  { CreatePost := fun _ db => (.error "database is locked", db),
    GetChatPosts := fun _ db => (.ok [], db) }

/-- A serializer that writes the content of the post. -/
def sampleMarshal : Post → Except String String :=
  fun post => .ok post.Content

/-- A transport on which every write fails. -/
def brokenWrite : Nat → Except String Unit :=
  fun _ => .error "broken pipe"

/-- A transport on which every write succeeds. -/
def goodWrite : Nat → Except String Unit :=
  fun _ => .ok ()

/-- A transport on which the second write fails and every other write
succeeds. -/
def secondWriteFails : Nat → Except String Unit :=
  fun n => if n = 1 then .error "broken pipe" else .ok ()

/-- An integer parser that accepts `7` and rejects everything else. -/
def sampleAtoi : String → Except String Int :=
  fun s => if s = "7" then .ok 7 else .error "invalid syntax"

/-- A repository over no storage whose every method succeeds: `CreatePost`
and `CreateThread` give the record the id 1, `CheckUserByID` allows the user
who owns the entity. -/
def okRepo : ForumRepository Unit :=
  { GetThreadByID := fun id db => (({ zeroThread with ID := id, UserID := 1 }, none), db),
    CreateThread := fun thread db => (({ thread with ID := 1 }, none), db),
    DeleteThreadByID := fun _ db => (none, db),
    CreatePost := fun post db => (({ post with ID := 1 }, none), db),
    DeletePostByID := fun _ db => (none, db),
    LinkPostToChat := fun _ db => (none, db),
    CheckUserByID := fun any id db => ((decide (any.USER_ID = id), none), db),
    GetPostByID := fun id db => (({ zeroPost with ID := id, UserID := 1 }, none), db),
    EditThread := fun _ _ db => (none, db) }

/-- A repository like `okRepo` whose `CreateThread` fails the way the SQL
repository does: the zero thread with an error. -/
def failingRepo : ForumRepository Unit :=
  { okRepo with CreateThread := fun _ db => ((zeroThread, some "database is locked"), db) }

/-- A repository like `okRepo` whose `CreatePost` fails the way the SQL
repository does: the zero post with an error. -/
def failingPostRepo : ForumRepository Unit :=
  { okRepo with CreatePost := fun _ db => ((zeroPost, some "database is locked"), db) }

/-- A valid post. -/
def validPost : Post :=
  { ID := 0, Content := "Valid content", CreateAt := 0, ThreadID := 1, UserID := 1 }

/-- A valid thread. -/
def validThread : Thread :=
  { ID := 0, Title := "Valid Title", Content := "Valid content", CreateAt := 0, UserID := 1 }

/-- A thread with valid content and a title of 501 bytes. -/
def longTitleThread : Thread :=
  { validThread with Title := String.mk (List.replicate 501 'a') }

/-- Two ordinary users, 1 and 2, and the thread 10 owned by user 1. -/
def sampleTables : Tables :=
  { users := [{ ID := 1, Name := "owner", Email := "owner@test.com", Role := "user" },
              { ID := 2, Name := "other", Email := "other@test.com", Role := "user" }],
    threads := [{ ID := 10, Title := "title", Content := "content", CreateAt := 0,
                  UserID := 1 }] }

/-- The SQL repository over `sampleTables`. -/
def sampleSqlRepo : ForumRepository Tables :=
  tablesHandle.asInterface
    { GetThreadByID := fun _ db => ((zeroThread, some "not modelled"), db),
      CreateThread := fun _ db => ((zeroThread, some "not modelled"), db),
      DeleteThreadByID := fun _ db => (some "not modelled", db),
      CreatePost := fun _ db => ((zeroPost, some "not modelled"), db),
      DeletePostByID := fun _ db => (some "not modelled", db),
      LinkPostToChat := fun _ db => (some "not modelled", db),
      CheckUserByID := fun _ _ db => ((false, some "not modelled"), db),
      GetPostByID := fun _ db => ((zeroPost, some "not modelled"), db),
      EditThread := fun _ _ db => (some "not modelled", db) }

/-- A request body for thread 10 that names `owner` as the owner of the
thread. -/
def editBody (owner : Int) : Thread :=
  { ID := 10, Title := "changed", Content := "changed", CreateAt := 0, UserID := owner }

/-! ## Lemmas on the broadcast loop -/

/-- The body of the broadcast loop by cases on the visited queue. -/
theorem Hub.chatVisit_eq (m : Post) (h : Hub) (c : ClientPtr) :
    h.chatVisit m c =
      if (h.heap c).threadID = m.ThreadID then
        if (h.heap c).send.closed = true then .error .sendOnClosed
        else if (h.heap c).send.buf.length < (h.heap c).send.cap then
          .ok (h.setSend c { (h.heap c).send with buf := (h.heap c).send.buf ++ [m] })
        else .ok ((h.setSend c { (h.heap c).send with closed := true }).deleteClient c)
      else .ok h := by
  unfold Hub.chatVisit Chan.trySend Chan.close
  by_cases ht : (h.heap c).threadID = m.ThreadID
  · by_cases hc : (h.heap c).send.closed = true
    · simp [ht, hc]
    · by_cases hl : (h.heap c).send.buf.length < (h.heap c).send.cap
      · simp [ht, hc, hl]
      · simp [ht, hc, hl]
  · simp [ht]

/-- A visit changes no client object other than the visited one. -/
theorem Hub.chatVisit_heap_ne {m : Post} {h h1 : Hub} {c p : ClientPtr}
    (hv : h.chatVisit m c = .ok h1) (hp : p ≠ c) : h1.heap p = h.heap p := by
  rw [Hub.chatVisit_eq] at hv
  split_ifs at hv <;> cases hv <;> simp [Hub.setSend, Hub.deleteClient, hp]

/-- A visit changes the membership of no client other than the visited one. -/
theorem Hub.chatVisit_mem_ne {m : Post} {h h1 : Hub} {c p : ClientPtr}
    (hv : h.chatVisit m c = .ok h1) (hp : p ≠ c) : p ∈ h1.clients ↔ p ∈ h.clients := by
  rw [Hub.chatVisit_eq] at hv
  split_ifs at hv <;> cases hv <;>
    simp [Hub.setSend, Hub.deleteClient, List.mem_erase_of_ne hp]

/-- Clients that are not visited keep their object and their membership. -/
theorem Hub.chatOver_frame {m : Post} :
    ∀ (order : List ClientPtr) {h h1 : Hub} {p : ClientPtr},
      Hub.chatOver m order h = .ok h1 → p ∉ order →
      h1.heap p = h.heap p ∧ (p ∈ h1.clients ↔ p ∈ h.clients)
  | [], h, h1, p, hv, _ => by
    simp only [Hub.chatOver, Except.ok.injEq] at hv
    subst hv
    exact ⟨rfl, Iff.rfl⟩
  | c :: cs, h, h1, p, hv, hp => by
    simp only [Hub.chatOver] at hv
    cases hc : h.chatVisit m c with
    | error e => rw [hc] at hv; cases hv
    | ok h0 =>
      rw [hc] at hv
      have hne : p ≠ c := fun e => hp (e ▸ List.mem_cons_self _ _)
      have hcs : p ∉ cs := fun e => hp (List.mem_cons_of_mem _ e)
      obtain ⟨a, b⟩ := Hub.chatOver_frame cs hv hcs
      exact ⟨a.trans (Hub.chatVisit_heap_ne hc hne), b.trans (Hub.chatVisit_mem_ne hc hne)⟩

/-- A client visited once ends the loop as its own visit left it. -/
theorem Hub.chatOver_visit {m : Post} :
    ∀ (order : List ClientPtr) {h h1 : Hub} {p : ClientPtr},
      Hub.chatOver m order h = .ok h1 → order.Nodup → p ∈ order →
      ∃ h0 h2 : Hub, h0.heap p = h.heap p ∧ (p ∈ h0.clients ↔ p ∈ h.clients) ∧
        h0.chatVisit m p = .ok h2 ∧ h1.heap p = h2.heap p ∧
        (p ∈ h1.clients ↔ p ∈ h2.clients)
  | [], _, _, _, _, _, hp => by cases hp
  | c :: cs, h, h1, p, hv, hnd, hp => by
    simp only [Hub.chatOver] at hv
    cases hc : h.chatVisit m c with
    | error e => rw [hc] at hv; cases hv
    | ok h0 =>
      rw [hc] at hv
      rw [List.nodup_cons] at hnd
      by_cases hpc : p = c
      · subst hpc
        obtain ⟨a, b⟩ := Hub.chatOver_frame cs hv hnd.1
        exact ⟨h, h0, rfl, Iff.rfl, hc, a, b⟩
      · have hcs : p ∈ cs := (List.mem_cons.mp hp).resolve_left hpc
        obtain ⟨k0, k2, e1, e2, e3, e4, e5⟩ := Hub.chatOver_visit cs hv hnd.2 hcs
        exact ⟨k0, k2, e1.trans (Hub.chatVisit_heap_ne hc hpc),
          e2.trans (Hub.chatVisit_mem_ne hc hpc), e3, e4, e5⟩

/-- The broadcast loop completes when every visited client of the message's
thread has an open queue. -/
theorem Hub.chatOver_total {m : Post} :
    ∀ (order : List ClientPtr) (h : Hub), order.Nodup →
      (∀ c ∈ order, (h.heap c).threadID = m.ThreadID → h.isOpen c) →
      ∃ h1, Hub.chatOver m order h = .ok h1
  | [], h, _, _ => ⟨h, rfl⟩
  | c :: cs, h, hnd, hopen => by
    rw [List.nodup_cons] at hnd
    have hc : ∃ h0, h.chatVisit m c = .ok h0 := by
      rw [Hub.chatVisit_eq]
      by_cases ht : (h.heap c).threadID = m.ThreadID
      · have ho : (h.heap c).send.closed = false := hopen c (List.mem_cons_self _ _) ht
        simp only [ht, ho, if_true, Bool.false_eq_true, if_false]
        split_ifs <;> exact ⟨_, rfl⟩
      · simp only [ht, if_false]
        exact ⟨_, rfl⟩
    obtain ⟨h0, hc⟩ := hc
    have hrest : ∀ p ∈ cs, (h0.heap p).threadID = m.ThreadID → h0.isOpen p := by
      intro p hp ht
      have hne : p ≠ c := fun e => hnd.1 (e ▸ hp)
      have hh := Hub.chatVisit_heap_ne hc hne
      unfold Hub.isOpen
      rw [hh] at ht ⊢
      exact hopen p (List.mem_cons_of_mem _ hp) ht
    obtain ⟨h1, hr⟩ := Hub.chatOver_total cs h0 hnd.2 hrest
    exact ⟨h1, by simp only [Hub.chatOver, hc, hr]⟩

/-- What the visit of `p` does to `p` itself. -/
theorem Hub.chatVisit_self {m : Post} {h0 h2 : Hub} {p : ClientPtr}
    (hv : h0.chatVisit m p = .ok h2) :
    ((h0.heap p).threadID ≠ m.ThreadID → h2 = h0) ∧
    ((h0.heap p).threadID = m.ThreadID →
      (h0.heap p).send.closed = false ∧
      ((h0.heap p).send.buf.length < (h0.heap p).send.cap →
        h2.heap p = { h0.heap p with
          send := { (h0.heap p).send with buf := (h0.heap p).send.buf ++ [m] } } ∧
        (p ∈ h2.clients ↔ p ∈ h0.clients)) ∧
      ((h0.heap p).send.cap ≤ (h0.heap p).send.buf.length →
        h2.heap p = { h0.heap p with send := { (h0.heap p).send with closed := true } } ∧
        p ∉ h2.clients)) := by
  rw [Hub.chatVisit_eq] at hv
  split_ifs at hv with ht hc hl
  · cases hv
    refine ⟨fun hne => absurd ht hne, fun _ => ⟨by simpa using hc, fun _ => ?_, fun hge => ?_⟩⟩
    · simp [Hub.setSend]
    · omega
  · cases hv
    refine ⟨fun hne => absurd ht hne, fun _ => ⟨by simpa using hc, fun hlt => ?_, fun _ => ?_⟩⟩
    · omega
    · refine ⟨by simp [Hub.setSend, Hub.deleteClient], ?_⟩
      simpa [Hub.setSend, Hub.deleteClient] using h0.nodup.not_mem_erase
  · cases hv
    exact ⟨fun _ => rfl, fun he => absurd he ht⟩

/-- A broadcast leaves alone every client that is not registered or is bound
to another thread. -/
theorem Hub.onChat_other {m : Post} {h h1 : Hub} (hv : h.onChat m = .ok h1) (c : ClientPtr)
    (hc : c ∉ h.clients ∨ (h.heap c).threadID ≠ m.ThreadID) :
    h1.heap c = h.heap c ∧ (c ∈ h1.clients ↔ c ∈ h.clients) := by
  by_cases hm : c ∈ h.clients
  · have ht : (h.heap c).threadID ≠ m.ThreadID := hc.resolve_left (fun k => k hm)
    obtain ⟨h0, h2, e1, e2, e3, e4, e5⟩ := Hub.chatOver_visit h.clients hv h.nodup hm
    have hs := (Hub.chatVisit_self e3).1 (by rw [e1]; exact ht)
    subst hs
    exact ⟨e4.trans e1, e5.trans e2⟩
  · exact Hub.chatOver_frame h.clients hv hm

/-- A broadcast appends the message to the queue of every registered client
of its thread that has a free slot, and keeps the client registered. -/
theorem Hub.onChat_room {m : Post} {h h1 : Hub} (hv : h.onChat m = .ok h1) (c : ClientPtr)
    (hm : c ∈ h.clients) (ht : (h.heap c).threadID = m.ThreadID)
    (hl : (h.heap c).send.buf.length < (h.heap c).send.cap) :
    c ∈ h1.clients ∧
    h1.heap c = { h.heap c with
      send := { (h.heap c).send with buf := (h.heap c).send.buf ++ [m] } } := by
  obtain ⟨h0, h2, e1, e2, e3, e4, e5⟩ := Hub.chatOver_visit h.clients hv h.nodup hm
  obtain ⟨a, b⟩ := ((Hub.chatVisit_self e3).2 (by rw [e1]; exact ht)).2.1 (by rw [e1]; exact hl)
  exact ⟨e5.mpr (b.mpr (e2.mpr hm)), by rw [e4, a, e1]⟩

/-- A broadcast evicts every registered client of its thread whose queue is
full: the queue is closed with its contents untouched and the client leaves
the registry. -/
theorem Hub.onChat_full {m : Post} {h h1 : Hub} (hv : h.onChat m = .ok h1) (c : ClientPtr)
    (hm : c ∈ h.clients) (ht : (h.heap c).threadID = m.ThreadID)
    (hl : (h.heap c).send.cap ≤ (h.heap c).send.buf.length) :
    c ∉ h1.clients ∧
    h1.heap c = { h.heap c with send := { (h.heap c).send with closed := true } } := by
  obtain ⟨h0, h2, e1, e2, e3, e4, e5⟩ := Hub.chatOver_visit h.clients hv h.nodup hm
  obtain ⟨a, b⟩ := ((Hub.chatVisit_self e3).2 (by rw [e1]; exact ht)).2.2 (by rw [e1]; exact hl)
  exact ⟨fun k => b (e5.mp k), by rw [e4, a, e1]⟩

/-- A broadcast that completes found the queue of every registered client of
its thread open. -/
theorem Hub.onChat_open {m : Post} {h h1 : Hub} (hv : h.onChat m = .ok h1) (c : ClientPtr)
    (hm : c ∈ h.clients) (ht : (h.heap c).threadID = m.ThreadID) : h.isOpen c := by
  obtain ⟨h0, h2, e1, _, e3, _, _⟩ := Hub.chatOver_visit h.clients hv h.nodup hm
  have := ((Hub.chatVisit_self e3).2 (by rw [e1]; exact ht)).1
  rw [e1] at this
  exact this

/-- A broadcast completes in every state whose registered clients have open
queues. -/
theorem Hub.onChat_total (h : Hub) (m : Post) (ho : h.RegisteredOpen) :
    ∃ h1, h.onChat m = .ok h1 :=
  Hub.chatOver_total h.clients h h.nodup (fun c hc _ => ho c hc)

/-! ## Claims on `Hub.Run` -/

/-- C1, partition isolation: a broadcast of `m` completes in every state whose
registered connections have open queues, and whenever it completes every
connection bound to a thread other than `m.ThreadID` keeps its client object
(same queue contents, same closed flag) and its registry membership. -/
theorem partition_isolation (h : Hub) (m : Post) :
    (h.RegisteredOpen → ∃ h1, h.step (.chat m) = .ok h1) ∧
    ∀ h1, h.step (.chat m) = .ok h1 →
      ∀ c, (h.heap c).threadID ≠ m.ThreadID →
        h1.heap c = h.heap c ∧ (c ∈ h1.clients ↔ c ∈ h.clients) :=
  ⟨Hub.onChat_total h m, fun _ hv c hc => Hub.onChat_other hv c (Or.inr hc)⟩

/-- C1 on the sample hub: after the broadcast of a thread-7 message the
thread-8 client 2 is still registered with an open, empty queue. -/
theorem partition_isolation_witness :
    ∃ h1, sampleHub.step (.chat samplePost) = .ok h1 ∧
      (h1.heap 2).send = Chan.make 256 ∧ 2 ∈ h1.clients := by
  obtain ⟨h1, hv⟩ := (partition_isolation sampleHub samplePost).1 (fun _ _ => rfl)
  obtain ⟨a, b⟩ := (partition_isolation sampleHub samplePost).2 h1 hv 2 (by decide)
  exact ⟨h1, hv, by rw [a]; rfl, b.mpr (by decide)⟩

/-- C2, broadcast delivery: a broadcast of `m` completes in every state whose
registered connections have open queues, and whenever it completes every
registered connection of thread `m.ThreadID` whose queue held fewer messages
than its capacity is still registered and its queue is the previous queue
with `m` appended at the tail. -/
theorem broadcast_delivery (h : Hub) (m : Post) :
    (h.RegisteredOpen → ∃ h1, h.step (.chat m) = .ok h1) ∧
    ∀ h1, h.step (.chat m) = .ok h1 →
      ∀ c ∈ h.clients, (h.heap c).threadID = m.ThreadID →
        (h.heap c).send.buf.length < (h.heap c).send.cap →
        c ∈ h1.clients ∧
        (h1.heap c).send =
          { (h.heap c).send with buf := (h.heap c).send.buf ++ [m] } ∧
        (h1.heap c).send.closed = false :=
  ⟨Hub.onChat_total h m, fun _ hv c hm ht hl => by
    obtain ⟨a, b⟩ := Hub.onChat_room hv c hm ht hl
    have ho : (h.heap c).send.closed = false := Hub.onChat_open hv c hm ht
    exact ⟨a, by rw [b], by rw [b]; exact ho⟩⟩

/-- C2 on the sample hub: both thread-7 clients 0 and 1 receive the message. -/
theorem broadcast_delivery_witness :
    ∃ h1, sampleHub.step (.chat samplePost) = .ok h1 ∧
      (0 ∈ h1.clients ∧ (h1.heap 0).send.buf = [samplePost]) ∧
      (1 ∈ h1.clients ∧ (h1.heap 1).send.buf = [samplePost]) := by
  obtain ⟨h1, hv⟩ := (broadcast_delivery sampleHub samplePost).1 (fun _ _ => rfl)
  obtain ⟨a0, b0, _⟩ :=
    (broadcast_delivery sampleHub samplePost).2 h1 hv 0 (by decide) (by decide) (by decide)
  obtain ⟨a1, b1, _⟩ :=
    (broadcast_delivery sampleHub samplePost).2 h1 hv 1 (by decide) (by decide) (by decide)
  exact ⟨h1, hv, ⟨a0, by rw [b0]; rfl⟩, ⟨a1, by rw [b1]; rfl⟩⟩

/-- C3, backpressure eviction: whenever a broadcast of `m` completes (and it
completes in every state whose registered connections have open queues), a
registered connection of thread `m.ThreadID` whose queue is filled to
capacity is evicted: its queue is closed with its contents unchanged (`m` is
not added) and it is no longer registered; every other registered connection
of that thread with a free slot stays registered and has `m` appended. -/
theorem backpressure_eviction (h : Hub) (m : Post) :
    (h.RegisteredOpen → ∃ h1, h.step (.chat m) = .ok h1) ∧
    ∀ h1, h.step (.chat m) = .ok h1 →
      ∀ c ∈ h.clients, (h.heap c).threadID = m.ThreadID →
        (h.heap c).send.cap ≤ (h.heap c).send.buf.length →
        (c ∉ h1.clients ∧ (h1.heap c).send.closed = true ∧
          (h1.heap c).send.buf = (h.heap c).send.buf) ∧
        ∀ d ∈ h.clients, d ≠ c → (h.heap d).threadID = m.ThreadID →
          (h.heap d).send.buf.length < (h.heap d).send.cap →
          d ∈ h1.clients ∧ (h1.heap d).send.buf = (h.heap d).send.buf ++ [m] ∧
            (h1.heap d).send.closed = false :=
  ⟨Hub.onChat_total h m, fun _ hv c hm ht hl => by
    obtain ⟨a, b⟩ := Hub.onChat_full hv c hm ht hl
    refine ⟨⟨a, by rw [b], by rw [b]⟩, fun d hd _ hdt hdl => ?_⟩
    obtain ⟨a1, b1⟩ := Hub.onChat_room hv d hd hdt hdl
    have ho : (h.heap d).send.closed = false := Hub.onChat_open hv d hd hdt
    exact ⟨a1, by rw [b1], by rw [b1]; exact ho⟩⟩

/-- C3 on a hub whose client 0 has 256 queued messages: the broadcast evicts
client 0 and still reaches client 1. -/
theorem backpressure_eviction_witness :
    ∃ h1, fullHub.step (.chat samplePost) = .ok h1 ∧
      (0 ∉ h1.clients ∧ (h1.heap 0).send.closed = true ∧
        (h1.heap 0).send.buf = List.replicate 256 samplePost) ∧
      (1 ∈ h1.clients ∧ (h1.heap 1).send.buf = [samplePost]) := by
  obtain ⟨h1, hv⟩ := (backpressure_eviction fullHub samplePost).1 (fun _ _ => rfl)
  obtain ⟨⟨a, b, c⟩, k⟩ :=
    (backpressure_eviction fullHub samplePost).2 h1 hv 0 (by decide) rfl
      (List.length_replicate 256 samplePost).ge
  obtain ⟨a1, b1, _⟩ := k 1 (by decide) (by decide) rfl (by decide)
  exact ⟨h1, hv, ⟨a, b, by rw [c]; rfl⟩, ⟨a1, by rw [b1]; rfl⟩⟩

/-- The unregister case by cases on membership and on the closed flag. -/
theorem Hub.onUnregister_eq (h : Hub) (c : ClientPtr) :
    h.onUnregister c =
      if c ∈ h.clients then
        if (h.heap c).send.closed = true then .error .closeOfClosed
        else .ok ((h.setSend c { (h.heap c).send with closed := true }).deleteClient c)
      else .ok h := by
  unfold Hub.onUnregister Chan.close
  by_cases hm : c ∈ h.clients
  · by_cases hc : (h.heap c).send.closed = true
    · simp [hm, hc]
    · simp [hm, hc]
  · simp [hm]

/-- C4, register then unregister: the two events complete for every
connection whose queue is open when it is registered, and whenever they
complete the registry does not contain `c`, the queue of `c` is closed with
its contents unchanged, and every other connection keeps its client object
and its membership. -/
theorem register_then_unregister (h : Hub) (c : ClientPtr) :
    (h.isOpen c → ∃ h2, h.Run [.register c, .unregister c] = .ok h2) ∧
    ∀ h2, h.Run [.register c, .unregister c] = .ok h2 →
      c ∉ h2.clients ∧ (h2.heap c).send.closed = true ∧
      (h2.heap c).send.buf = (h.heap c).send.buf ∧
      ∀ p, p ≠ c → h2.heap p = h.heap p ∧ (p ∈ h2.clients ↔ p ∈ h.clients) := by
  have hin : c ∈ (h.insertClient c).clients := by simp [Hub.insertClient]
  have hrun : h.Run [.register c, .unregister c] =
      if (h.heap c).send.closed = true then .error .closeOfClosed
      else .ok (((h.insertClient c).setSend c
        { (h.heap c).send with closed := true }).deleteClient c) := by
    have hheap : (h.insertClient c).heap c = h.heap c := rfl
    simp only [Hub.Run, Hub.step, Hub.onRegister, Hub.onUnregister_eq, hin, if_true, hheap]
    split_ifs <;> rfl
  refine ⟨fun ho => ?_, fun h2 hv => ?_⟩
  · unfold Hub.isOpen at ho
    rw [hrun]
    simp only [ho, Bool.false_eq_true, if_false]
    exact ⟨_, rfl⟩
  · rw [hrun] at hv
    split_ifs at hv
    cases hv
    refine ⟨?_, ?_, ?_, fun p hp => ⟨?_, ?_⟩⟩
    · simpa [Hub.setSend, Hub.deleteClient] using (h.insertClient c).nodup.not_mem_erase
    · simp [Hub.setSend, Hub.deleteClient, Hub.insertClient]
    · simp [Hub.setSend, Hub.deleteClient, Hub.insertClient]
    · simp [Hub.setSend, Hub.deleteClient, Hub.insertClient, hp]
    · simp [Hub.setSend, Hub.deleteClient, Hub.insertClient, List.mem_erase_of_ne hp, hp]

/-- C4 on the sample hub with the fresh client 3: after `register(3)` and
`unregister(3)` client 3 is not registered, its queue is closed, and client 0
is still registered with its queue unchanged. -/
theorem register_then_unregister_witness :
    ∃ h2, sampleHub.Run [.register 3, .unregister 3] = .ok h2 ∧
      3 ∉ h2.clients ∧ (h2.heap 3).send.closed = true ∧
      h2.heap 0 = sampleHub.heap 0 ∧ 0 ∈ h2.clients := by
  obtain ⟨h2, hv⟩ := (register_then_unregister sampleHub 3).1 rfl
  obtain ⟨a, b, _, k⟩ := (register_then_unregister sampleHub 3).2 h2 hv
  exact ⟨h2, hv, a, b, (k 0 (by decide)).1, (k 0 (by decide)).2.mpr (by decide)⟩

/-- C5, unregister is safe to repeat: for a connection that is not in the
registry the unregister event completes without a panic and returns the hub
state unchanged (no queue is closed, nothing is deleted). -/
theorem unregister_absent_noop (h : Hub) (c : ClientPtr) (hc : c ∉ h.clients) :
    h.step (.unregister c) = .ok h := by
  simp [Hub.step, Hub.onUnregister_eq, hc]

/-- C5 on the sample hub: after a first `unregister(0)` has removed client 0
and closed its queue, a second `unregister(0)` returns the same state. -/
theorem unregister_absent_noop_witness :
    ∃ h1, sampleHub.step (.unregister 0) = .ok h1 ∧ 0 ∉ h1.clients ∧
      (h1.heap 0).send.closed = true ∧ h1.step (.unregister 0) = .ok h1 :=
  ⟨(sampleHub.setSend 0 { (sampleHub.heap 0).send with closed := true }).deleteClient 0,
    rfl, by decide, rfl,
    unregister_absent_noop _ 0 (by decide)⟩

/-! ## Runs of `Hub.Run` from the empty hub -/

/-- Running a concatenation of event lists is running them one after the
other. -/
theorem Hub.Run_append (es fs : List Event) :
    ∀ h : Hub, h.Run (es ++ fs) =
      match h.Run es with
      | .error p => .error p
      | .ok h1 => h1.Run fs := by
  induction es with
  | nil => intro h; rfl
  | cons e es ih =>
    intro h
    simp only [List.cons_append, Hub.Run]
    cases h.step e with
    | error p => rfl
    | ok h1 => exact ih h1

/-- Running one more event. -/
theorem Hub.Run_concat {h h1 : Hub} {es : List Event} (hv : h.Run es = .ok h1) (e : Event) :
    h.Run (es ++ [e]) = h1.step e := by
  rw [Hub.Run_append, hv]
  simp only [Hub.Run]
  cases h1.step e <;> rfl

/-- A run that completes has completed on every prefix. -/
theorem Hub.Run_prefix {h h2 : Hub} {es fs : List Event} (hv : h.Run (es ++ fs) = .ok h2) :
    ∃ h1, h.Run es = .ok h1 := by
  rw [Hub.Run_append] at hv
  cases hr : h.Run es with
  | error p => rw [hr] at hv; cases hv
  | ok h1 => exact ⟨h1, rfl⟩

/-- Registry membership after one event. -/
theorem Hub.step_mem {h h1 : Hub} {e : Event} (hv : h.step e = .ok h1) (p : ClientPtr) :
    p ∈ h1.clients ↔ (p ∈ h.clients ∧ ¬ h.deregisters p e) ∨ e = .register p := by
  cases e with
  | register c =>
    simp only [Hub.step, Hub.onRegister, Except.ok.injEq] at hv
    subst hv
    simp only [Hub.insertClient, List.mem_insert_iff, Hub.deregisters, not_false_eq_true,
      and_true, Event.register.injEq]
    constructor
    · rintro (a | a)
      · exact Or.inr a.symm
      · exact Or.inl a
    · rintro (a | a)
      · exact Or.inr a
      · exact Or.inl a.symm
  | unregister c =>
    simp only [Hub.step, Hub.onUnregister_eq] at hv
    simp only [Hub.deregisters, reduceCtorEq, or_false]
    split_ifs at hv with hm hc
    · cases hv
      simp only [Hub.deleteClient, Hub.setSend, h.nodup.mem_erase_iff]
      constructor
      · rintro ⟨a, b⟩
        exact ⟨b, fun k => a k.symm⟩
      · rintro ⟨a, b⟩
        exact ⟨fun k => b k.symm, a⟩
    · cases hv
      constructor
      · intro a
        exact ⟨a, fun k => hm (k ▸ a)⟩
      · exact fun a => a.1
  | chat m =>
    simp only [Hub.step] at hv
    simp only [Hub.deregisters, reduceCtorEq, or_false, Hub.overflows]
    by_cases hm : p ∈ h.clients
    · by_cases ht : (h.heap p).threadID = m.ThreadID
      · by_cases hl : (h.heap p).send.buf.length < (h.heap p).send.cap
        · have := (Hub.onChat_room hv p hm ht hl).1
          simp only [this, hm, ht, true_and, true_iff, not_le]
          exact hl
        · have := (Hub.onChat_full hv p hm ht (not_lt.mp hl)).1
          simp only [this, hm, ht, true_and, false_iff, not_not]
          exact not_lt.mp hl
      · rw [(Hub.onChat_other hv p (Or.inr ht)).2]
        simp [hm, ht]
    · rw [(Hub.onChat_other hv p (Or.inl hm)).2]
      simp [hm]

/-- Openness of a queue after one event. -/
theorem Hub.step_open {h h1 : Hub} {e : Event} (hv : h.step e = .ok h1) (p : ClientPtr) :
    h1.isOpen p ↔ h.isOpen p ∧ ¬ (p ∈ h.clients ∧ h.deregisters p e) := by
  cases e with
  | register c =>
    simp only [Hub.step, Hub.onRegister, Except.ok.injEq] at hv
    subst hv
    simp [Hub.insertClient, Hub.isOpen, Hub.deregisters]
  | unregister c =>
    simp only [Hub.step, Hub.onUnregister_eq] at hv
    simp only [Hub.deregisters, Hub.isOpen]
    split_ifs at hv with hm hc
    · cases hv
      by_cases hp : p = c
      · subst hp
        simp [Hub.deleteClient, Hub.setSend, hm]
      · simp [Hub.deleteClient, Hub.setSend, hp, Ne.symm hp]
    · cases hv
      constructor
      · intro a
        exact ⟨a, fun k => hm (k.2 ▸ k.1)⟩
      · exact fun a => a.1
  | chat m =>
    simp only [Hub.step] at hv
    simp only [Hub.deregisters, Hub.overflows, Hub.isOpen]
    by_cases hm : p ∈ h.clients
    · by_cases ht : (h.heap p).threadID = m.ThreadID
      · have ho : (h.heap p).send.closed = false := Hub.onChat_open hv p hm ht
        by_cases hl : (h.heap p).send.buf.length < (h.heap p).send.cap
        · rw [(Hub.onChat_room hv p hm ht hl).2]
          simp [ho, hl]
        · rw [(Hub.onChat_full hv p hm ht (not_lt.mp hl)).2]
          simp [hm, ht, not_lt.mp hl]
      · rw [(Hub.onChat_other hv p (Or.inr ht)).1]
        simp [ht]
    · rw [(Hub.onChat_other hv p (Or.inl hm)).1]
      simp [hm]

/-- An event completes in every state whose registered connections have open
queues. -/
theorem Hub.step_total (h : Hub) (e : Event) (ho : h.RegisteredOpen) :
    ∃ h1, h.step e = .ok h1 := by
  cases e with
  | register c => exact ⟨_, rfl⟩
  | unregister c =>
    simp only [Hub.step, Hub.onUnregister_eq]
    by_cases hm : c ∈ h.clients
    · have : (h.heap c).send.closed = false := ho c hm
      simp only [hm, this, if_true, Bool.false_eq_true, if_false]
      exact ⟨_, rfl⟩
    · simp only [hm, if_false]
      exact ⟨_, rfl⟩
  | chat m => exact Hub.onChat_total h m ho

/-- The registrations of a concatenation. -/
theorem registrations_append (es fs : List Event) :
    registrations (es ++ fs) = registrations es ++ registrations fs := by
  induction es with
  | nil => rfl
  | cons e es ih =>
    cases e <;> simp [registrations, ih]

/-- A client is among the registrations exactly when its register event is in
the sequence. -/
theorem mem_registrations (es : List Event) (c : ClientPtr) :
    c ∈ registrations es ↔ Event.register c ∈ es := by
  induction es with
  | nil => simp [registrations]
  | cons e es ih =>
    cases e <;> simp [registrations, ih]

/-- The run from the empty hub completes when each connection is registered
at most once and with an open queue; it ends in a state whose registered
connections have open queues and were registered by the sequence, and every
queue closed during the run belongs to a connection the sequence registered. -/
theorem Hub.Run_invariant (heap : ClientPtr → Client) (es : List Event) :
    (∀ c ∈ registrations es, (heap c).send.closed = false) →
    (registrations es).Nodup →
    ∃ h, (NewHub heap).Run es = .ok h ∧ h.RegisteredOpen ∧
      (∀ c ∈ h.clients, c ∈ registrations es) ∧
      (∀ c, (heap c).send.closed = false → ¬ h.isOpen c → c ∈ registrations es) := by
  induction es using List.reverseRecOn with
  | nil =>
    intro _ _
    refine ⟨NewHub heap, rfl, ?_, ?_, ?_⟩
    · intro c hc
      simp [NewHub] at hc
    · intro c hc
      simp [NewHub] at hc
    · intro c h0 h1
      exact absurd h0 h1
  | append_singleton es e ih =>
    intro hopen honce
    rw [registrations_append] at hopen honce
    obtain ⟨h, hrun, hro, hreg, hcl⟩ :=
      ih (fun c hc => hopen c (List.mem_append_left _ hc)) (List.Nodup.of_append_left honce)
    obtain ⟨h1, hstep⟩ := Hub.step_total h e hro
    refine ⟨h1, by rw [Hub.Run_concat hrun, hstep], ?_, ?_, ?_⟩
    · intro c hc
      rw [Hub.step_open hstep]
      rcases (Hub.step_mem hstep c).mp hc with ⟨a, b⟩ | a
      · exact ⟨hro c a, fun k => b k.2⟩
      · subst a
        have hmem : c ∈ registrations [Event.register c] := by simp [registrations]
        have hfresh : c ∉ registrations es := fun k =>
          (List.disjoint_of_nodup_append honce) k hmem
        refine ⟨?_, fun k => k.2⟩
        by_contra hno
        exact hfresh (hcl c (hopen c (List.mem_append_right _ hmem)) hno)
    · intro c hc
      rw [registrations_append]
      rcases (Hub.step_mem hstep c).mp hc with ⟨a, _⟩ | a
      · exact List.mem_append_left _ (hreg c a)
      · subst a
        exact List.mem_append_right _ (by simp [registrations])
    · intro c h0 hno
      rw [registrations_append]
      rw [Hub.step_open hstep] at hno
      by_cases ho : h.isOpen c
      · have : c ∈ h.clients := by
          by_contra k
          exact hno ⟨ho, fun q => k q.1⟩
        exact List.mem_append_left _ (hreg c this)
      · exact List.mem_append_left _ (hcl c h0 ho)

/-- C7, closed queues accept no further enqueues from the hub: when each
connection is registered at most once and with an open queue, the run of any
event sequence from the empty hub completes without a panic (no send on a
closed queue, no second close), every registered connection has an open queue,
and every connection whose queue is closed is absent from the registry. -/
theorem closed_queues_not_registered (heap : ClientPtr → Client) (es : List Event)
    (hopen : ∀ c ∈ registrations es, (heap c).send.closed = false)
    (honce : (registrations es).Nodup) :
    ∃ h, (NewHub heap).Run es = .ok h ∧
      (∀ c ∈ h.clients, (h.heap c).send.closed = false) ∧
      (∀ c, (h.heap c).send.closed = true → c ∉ h.clients) := by
  obtain ⟨h, hrun, hro, _, _⟩ := Hub.Run_invariant heap es hopen honce
  refine ⟨h, hrun, hro, fun c hc hm => ?_⟩
  have := hro c hm
  unfold Hub.isOpen at this
  rw [hc] at this
  cases this

/-- C7 on the sample run: the run completes, and its registered connections
have open queues. -/
theorem closed_queues_not_registered_witness :
    (registrations sampleEvents).Nodup ∧
    ∃ h, (NewHub sampleHeap).Run sampleEvents = .ok h ∧
      (∀ c ∈ h.clients, (h.heap c).send.closed = false) ∧
      (∀ c, (h.heap c).send.closed = true → c ∉ h.clients) :=
  ⟨by decide, closed_queues_not_registered sampleHeap sampleEvents (fun _ _ => rfl) (by decide)⟩

/-- A list is empty or ends in a last element. -/
theorem list_nil_or_snoc {α : Type} (l : List α) : l = [] ∨ ∃ L b, l = L ++ [b] := by
  rcases List.eq_nil_or_concat l with a | ⟨L, b, a⟩
  · exact Or.inl a
  · exact Or.inr ⟨L, b, by rw [a, List.concat_eq_append]⟩

/-- How one more event changes whether a connection is registered and not
deregistered. -/
theorem registeredNotDeregistered_concat {heap : ClientPtr → Client} {es : List Event}
    {h : Hub} (hrun : (NewHub heap).Run es = .ok h) (e : Event) (c : ClientPtr) :
    RegisteredNotDeregistered heap (es ++ [e]) c ↔
      (RegisteredNotDeregistered heap es c ∧ ¬ h.deregisters c e) ∨ e = .register c := by
  constructor
  · rintro ⟨pre, post, heq, hall⟩
    rcases list_nil_or_snoc post with rfl | ⟨post1, e1, rfl⟩
    · obtain ⟨_, b⟩ := List.append_inj' heq rfl
      exact Or.inr (by simpa using b)
    · have heq1 : es ++ [e] = (pre ++ Event.register c :: post1) ++ [e1] := by
        rw [heq]
        simp
      obtain ⟨a, b⟩ := List.append_inj' heq1 rfl
      have b1 : e = e1 := by simpa using b
      subst b1
      refine Or.inl ⟨⟨pre, post1, a, ?_⟩, ?_⟩
      · intro q1 x q2 hq k hk
        exact hall q1 x (q2 ++ [e]) (by rw [hq]; simp) k hk
      · exact hall post1 e [] rfl h (by rw [← a]; exact hrun)
  · rintro (⟨⟨pre, post, heq, hall⟩, hno⟩ | rfl)
    · refine ⟨pre, post ++ [e], by rw [heq]; simp, ?_⟩
      intro q1 x q2 hq k hk
      rcases list_nil_or_snoc q2 with rfl | ⟨q3, y, rfl⟩
      · obtain ⟨a, b⟩ := List.append_inj' hq rfl
        have b1 : e = x := by simpa using b
        subst b1 a
        rw [← heq, hrun] at hk
        cases hk
        exact hno
      · have hq1 : post ++ [e] = (q1 ++ x :: q3) ++ [y] := by
          rw [hq]
          simp
        obtain ⟨a, _⟩ := List.append_inj' hq1 rfl
        exact hall q1 x q3 a k hk
    · refine ⟨es, [], rfl, ?_⟩
      intro q1 x q2 hq
      cases q1 <;> cases hq

/-- Whenever the run from the empty hub completes, the registry holds exactly
the connections registered and not deregistered since. -/
theorem Hub.Run_mem_iff (heap : ClientPtr → Client) (es : List Event) :
    ∀ h, (NewHub heap).Run es = .ok h →
      ∀ c, c ∈ h.clients ↔ RegisteredNotDeregistered heap es c := by
  induction es using List.reverseRecOn with
  | nil =>
    intro h hrun c
    simp only [Hub.Run, Except.ok.injEq] at hrun
    subst hrun
    constructor
    · intro hc
      simp [NewHub] at hc
    · rintro ⟨pre, post, heq, _⟩
      cases pre <;> cases heq
  | append_singleton es e ih =>
    intro h1 hrun c
    obtain ⟨h, hpre⟩ := Hub.Run_prefix hrun
    rw [Hub.Run_concat hpre] at hrun
    rw [registeredNotDeregistered_concat hpre, Hub.step_mem hrun, ih h hpre c]

/-- C6, registry invariant: for every event sequence applied to the empty hub
of `NewHub` in which each connection is registered at most once (with the open
queue `ThreadChat` gives it), the run completes and a connection is in the
registry afterwards if and only if the sequence contains its register event
and no later event deregistered it (no later unregister of it and no later
broadcast that found its queue full). -/
theorem registry_invariant (heap : ClientPtr → Client) (es : List Event)
    (hopen : ∀ c ∈ registrations es, (heap c).send.closed = false)
    (honce : (registrations es).Nodup) :
    ∃ h, (NewHub heap).Run es = .ok h ∧
      ∀ c, c ∈ h.clients ↔ RegisteredNotDeregistered heap es c := by
  obtain ⟨h, hrun, _⟩ := Hub.Run_invariant heap es hopen honce
  exact ⟨h, hrun, Hub.Run_mem_iff heap es h hrun⟩

/-- C6 on the sample run: it completes and its registry is characterised by
the registered-and-not-deregistered connections. -/
theorem registry_invariant_witness :
    (registrations sampleEvents).Nodup ∧
    ∃ h, (NewHub sampleHeap).Run sampleEvents = .ok h ∧
      ∀ c, c ∈ h.clients ↔ RegisteredNotDeregistered sampleHeap sampleEvents c :=
  ⟨by decide, registry_invariant sampleHeap sampleEvents (fun _ _ => rfl) (by decide)⟩

/-! ## Claims on the replay task and the Reader task -/

/-- The replay loop on an open queue that no other task touches: it enqueues
the posts that fit the free slots, and takes the `default` branch exactly when
a post is left over. -/
theorem replayLoop_eq (c : ClientPtr) (conn : Nat) (posts : List Post) :
    ∀ ch : Chan, ch.closed = false →
      replayLoop c conn posts ch =
        .ok ({ cap := ch.cap, buf := ch.buf ++ posts.take (ch.cap - ch.buf.length),
               closed := false },
          if ch.cap - ch.buf.length < posts.length then
            [.submitUnregister c, .connClose conn] else []) := by
  induction posts with
  | nil =>
    intro ch ho
    cases ch
    simp only at ho
    subst ho
    simp [replayLoop]
  | cons post rest ih =>
    intro ch ho
    cases ch with
    | mk cap buf closed =>
    simp only at ho
    subst ho
    unfold replayLoop Chan.trySend
    by_cases hl : buf.length < cap
    · simp only [Bool.false_eq_true, if_false, hl, if_true]
      rw [ih _ rfl]
      obtain ⟨k, hk⟩ : ∃ k, cap - buf.length = k + 1 := ⟨cap - buf.length - 1, by omega⟩
      have h1 : cap - (buf ++ [post]).length = k := by
        simp only [List.length_append, List.length_singleton]
        omega
      simp only [h1, hk, List.take_succ_cons, List.append_assoc, List.singleton_append,
        List.length_cons, Nat.add_lt_add_iff_right]
    · have h0 : cap - buf.length = 0 := by omega
      simp [hl, h0]

/-- The replay task once `GetChatPosts` has returned `posts`. -/
theorem replayTask_eq {σ : Type} (uc : PostUseCase σ) (id : Int) (c : ClientPtr) (conn : Nat)
    (ch : Chan) (db db1 : σ) (posts : List Post)
    (hget : uc.GetChatPosts id db = (.ok posts, db1)) (hopen : ch.closed = false) :
    replayTask uc id c conn ch db =
      (.ok ({ cap := ch.cap, buf := ch.buf ++ posts.take (ch.cap - ch.buf.length),
              closed := false },
        if ch.cap - ch.buf.length < posts.length then
          [.submitUnregister c, .connClose conn] else []), db1) := by
  unfold replayTask
  rw [hget]
  simp only
  rw [replayLoop_eq c conn posts ch hopen]

/-- The sample long history has 257 messages. -/
theorem longHistory_length : longHistory.length = 257 := by
  simp only [longHistory, List.length_map, List.length_range]

/-- C8 as stated fails: for a thread whose `GetChatPosts` result is the 257
messages of `longHistory`, the replay task for a newly connected client
(empty queue of capacity 256) completes having enqueued only the first 256
messages, then submits unregister and closes the transport; the last message
is never enqueued. -/
theorem replay_all_history_counterexample :
    (historyUseCase longHistory).GetChatPosts 7 () = (.ok longHistory, ()) ∧
    longHistory.length = 257 ∧
    replayTask (historyUseCase longHistory) 7 0 0 (newClient 0 7).send () =
      (.ok ({ cap := 256, buf := longHistory.take 256, closed := false },
        [.submitUnregister 0, .connClose 0]), ()) ∧
    (longHistory.take 256).length = 256 := by
  refine ⟨rfl, longHistory_length, ?_, ?_⟩
  · rw [replayTask_eq (historyUseCase longHistory) 7 0 0 (newClient 0 7).send () ()
      longHistory rfl rfl]
    have hk : (newClient 0 7).send.cap - (newClient 0 7).send.buf.length = 256 := rfl
    have hb : (newClient 0 7).send.buf = [] := rfl
    have hc : (newClient 0 7).send.cap = 256 := rfl
    rw [hk, hb, hc, longHistory_length]
    simp
  · rw [List.length_take, longHistory_length]
    rfl

/-- C8 amended: when the `GetChatPosts` result is a list of messages that fits
the free slots of the client's open queue (at most 256 messages for a newly
connected client), the replay task, with no other task touching the queue,
completes having enqueued all of them in the order `GetChatPosts` returned
them, and submits no unregister. -/
theorem replay_all_history {σ : Type} (uc : PostUseCase σ) (id : Int) (c : ClientPtr)
    (conn : Nat) (ch : Chan) (db db1 : σ) (posts : List Post)
    (hget : uc.GetChatPosts id db = (.ok posts, db1)) (hopen : ch.closed = false)
    (hfit : posts.length ≤ ch.cap - ch.buf.length) :
    replayTask uc id c conn ch db =
      (.ok ({ cap := ch.cap, buf := ch.buf ++ posts, closed := false }, []), db1) := by
  rw [replayTask_eq uc id c conn ch db db1 posts hget hopen, List.take_of_length_le hfit,
    if_neg (Nat.not_lt.mpr hfit)]

/-- C8 amended, on a newly connected client of thread 7 whose history holds
two messages: both are enqueued in order. -/
theorem replay_all_history_witness :
    replayTask (historyUseCase shortHistory) 7 0 0 (newClient 0 7).send () =
      (.ok ({ cap := 256, buf := shortHistory, closed := false }, []), ()) :=
  replay_all_history (historyUseCase shortHistory) 7 0 0 (newClient 0 7).send () ()
    shortHistory rfl rfl (by decide)

/-- C9, replay applies the non-blocking-or-evict policy: for every history of
`N` posts and every open client queue with `k` free slots that no other task
touches, the replay task enqueues exactly the first `min N k` posts in order;
when `N > k` it then submits unregister for the client and closes the
transport, and when `N ≤ k` it performs no action besides the enqueues. -/
theorem replay_nonblocking_or_evict {σ : Type} (uc : PostUseCase σ) (id : Int)
    (c : ClientPtr) (conn : Nat) (ch : Chan) (db db1 : σ) (posts : List Post)
    (hget : uc.GetChatPosts id db = (.ok posts, db1)) (hopen : ch.closed = false) :
    replayTask uc id c conn ch db =
      (.ok ({ cap := ch.cap,
              buf := ch.buf ++ posts.take (min posts.length (ch.cap - ch.buf.length)),
              closed := false },
        if posts.length > ch.cap - ch.buf.length then
          [.submitUnregister c, .connClose conn] else []), db1) := by
  rw [replayTask_eq uc id c conn ch db db1 posts hget hopen]
  have ht : posts.take (min posts.length (ch.cap - ch.buf.length)) =
      posts.take (ch.cap - ch.buf.length) := by
    rcases Nat.le_total posts.length (ch.cap - ch.buf.length) with hle | hle
    · rw [min_eq_left hle, List.take_of_length_le hle, List.take_of_length_le (le_refl _)]
    · rw [min_eq_right hle]
  rw [ht]

/-- C9 on a newly connected client (256 free slots) and a history of 257
posts: the first 256 are enqueued in order, then unregister is submitted and
the transport closed. -/
theorem replay_nonblocking_or_evict_witness :
    replayTask (historyUseCase longHistory) 7 3 4 (newClient 4 7).send () =
      (.ok ({ cap := 256, buf := longHistory.take (min 257 256), closed := false },
        [.submitUnregister 3, .connClose 4]), ()) := by
  have h := replay_nonblocking_or_evict (historyUseCase longHistory) 7 3 4
    (newClient 4 7).send () () longHistory rfl rfl
  have hk : (newClient 4 7).send.cap - (newClient 4 7).send.buf.length = 256 := rfl
  have hb : (newClient 4 7).send.buf = [] := rfl
  have hc : (newClient 4 7).send.cap = 256 := rfl
  rw [hk, hb, hc, longHistory_length] at h
  rw [h]
  rfl

/-- C10, thread-id override: the posts the Reader task hands to `CreatePost`
are, in order, the payloads of the frames that decode as a chat message, each
with `ThreadID` replaced by the bound thread id of the connection and with
`ID`, `Content`, `CreateAt` and `UserID` as decoded. -/
theorem reader_thread_override {σ : Type} (decode : String → Except String Post)
    (uc : PostUseCase σ) (id : Int) (c : ClientPtr) (conn : Nat)
    (reads : List (Except String String)) :
    ∀ db : σ, createPostArgs (readerTask decode uc id c conn reads db).1 =
      (decodedPosts decode (framesRead reads)).map (fun p =>
        { ID := p.ID, Content := p.Content, CreateAt := p.CreateAt, ThreadID := id,
          UserID := p.UserID }) := by
  induction reads with
  | nil => intro db; rfl
  | cons r rest ih =>
    intro db
    cases r with
    | error e => rfl
    | ok message =>
      simp only [readerTask, framesRead, decodedPosts]
      cases hd : decode message with
      | error e =>
        simp only [createPostArgs]
        exact ih db
      | ok decoded =>
        simp only
        cases hc : uc.CreatePost (stampThread id decoded) db with
        | mk res db1 =>
          cases res with
          | error e =>
            simp only [createPostArgs, List.map_cons, ih db1]
            rfl
          | ok created =>
            simp only [createPostArgs, List.map_cons, ih db1]
            rfl

/-- C10 on the frame with thread_id 999 read on a connection bound to thread
7: `CreatePost` is called with thread id 7 and the decoded content and user. -/
theorem reader_thread_override_witness :
    readerTask sampleDecode sampleUseCase 7 0 0 [.ok "hi"] 0 =
      ([.createPost { ID := 0, Content := "hi", CreateAt := 0, ThreadID := 7, UserID := 5 },
        .submitChat { ID := 1, Content := "hi", CreateAt := 0, ThreadID := 7, UserID := 5 }],
        1) ∧
    createPostArgs (readerTask sampleDecode sampleUseCase 7 0 0 [.ok "hi"] 0).1 =
      [{ ID := 0, Content := "hi", CreateAt := 0, ThreadID := 7, UserID := 5 }] :=
  ⟨by decide, by rw [reader_thread_override]; decide⟩

/-- The Reader has run its deferred function exactly when one of the reads
it was given failed. -/
theorem readerTask_deferred {σ : Type} (decode : String → Except String Post)
    (uc : PostUseCase σ) (id : Int) (c : ClientPtr) (conn : Nat)
    (reads : List (Except String String)) :
    ∀ db : σ,
      (Action.submitUnregister c ∈ (readerTask decode uc id c conn reads db).1 ↔
        ∃ e, Except.error e ∈ reads) ∧
      (Action.connClose conn ∈ (readerTask decode uc id c conn reads db).1 ↔
        ∃ e, Except.error e ∈ reads) := by
  induction reads with
  | nil => intro db; simp [readerTask]
  | cons r rest ih =>
    intro db
    cases r with
    | error e =>
      exact ⟨⟨fun _ => ⟨e, List.mem_cons_self _ _⟩, fun _ => by simp [readerTask]⟩,
        ⟨fun _ => ⟨e, List.mem_cons_self _ _⟩, fun _ => by simp [readerTask]⟩⟩
    | ok message =>
      simp only [readerTask]
      cases hd : decode message with
      | error e =>
        simp only [List.mem_cons, reduceCtorEq, false_or]
        exact ih db
      | ok decoded =>
        simp only
        cases hc : uc.CreatePost (stampThread id decoded) db with
        | mk res db1 =>
          cases res with
          | error e =>
            simp only [List.mem_cons, reduceCtorEq, false_or]
            exact ih db1
          | ok created =>
            simp only [List.mem_cons, reduceCtorEq, false_or]
            exact ih db1

/-- C11, persistence failure is recovered locally: when `CreatePost` returns
an error for a decoded inbound message, the Reader calls `CreatePost` once,
writes the acknowledgment with error `failed to create post` on the
connection, and goes on with the next read from the storage state the use case
left; the frame adds no event to the hub (no broadcast, no register, no
unregister), so the registry is unchanged. -/
theorem persistence_failure_recovered {σ : Type} (decode : String → Except String Post)
    (uc : PostUseCase σ) (id : Int) (c : ClientPtr) (conn : Nat) (message : String)
    (rest : List (Except String String)) (db db1 : σ) (decoded : Post) (e : String)
    (hd : decode message = .ok decoded)
    (hc : uc.CreatePost (stampThread id decoded) db = (.error e, db1)) :
    readerTask decode uc id c conn (.ok message :: rest) db =
      (.createPost (stampThread id decoded) :: .writeJSON "error" "failed to create post" ::
        (readerTask decode uc id c conn rest db1).1,
        (readerTask decode uc id c conn rest db1).2) ∧
    hubEvents (readerTask decode uc id c conn (.ok message :: rest) db).1 =
      hubEvents (readerTask decode uc id c conn rest db1).1 ∧
    ∀ h : Hub, h.Run (hubEvents [.createPost (stampThread id decoded),
      .writeJSON "error" "failed to create post"]) = .ok h := by
  have h1 : readerTask decode uc id c conn (.ok message :: rest) db =
      (.createPost (stampThread id decoded) :: .writeJSON "error" "failed to create post" ::
        (readerTask decode uc id c conn rest db1).1,
        (readerTask decode uc id c conn rest db1).2) := by
    simp only [readerTask, hd, hc]
  refine ⟨h1, ?_, fun h => rfl⟩
  rw [h1]
  rfl

/-- C11 on a use case whose storage rejects every post: the frame `hi` is
answered with the error acknowledgment, nothing reaches the hub, and the
Reader goes on to the next read (which fails and ends the task). -/
theorem persistence_failure_recovered_witness :
    readerTask sampleDecode failingUseCase 7 0 0 [.ok "hi", .error "EOF"] () =
      ([.createPost { ID := 0, Content := "hi", CreateAt := 0, ThreadID := 7, UserID := 5 },
        .writeJSON "error" "failed to create post",
        .submitUnregister 0, .connClose 0], ()) ∧
    hubEvents (readerTask sampleDecode failingUseCase 7 0 0 [.ok "hi", .error "EOF"] ()).1 =
      [.unregister 0] := by
  obtain ⟨a, b, _⟩ := persistence_failure_recovered sampleDecode failingUseCase 7 0 0 "hi"
    [.error "EOF"] () () { ID := 0, Content := "hi", CreateAt := 0, ThreadID := 999, UserID := 5 }
    "database is locked" rfl rfl
  exact ⟨a, b⟩

/-- C12, protocol errors are recovered locally: for a frame that fails to
decode the Reader writes the acknowledgment with error `invalid message
format` on the connection and goes on with the next read from the same
storage state, with no call of `CreatePost` and no event for the hub; and for
every sequence of reads the Reader runs its deferred function (it has left
its loop) exactly when one of the reads failed. -/
theorem protocol_error_recovered {σ : Type} (decode : String → Except String Post)
    (uc : PostUseCase σ) (id : Int) (c : ClientPtr) (conn : Nat) :
    (∀ (message : String) (rest : List (Except String String)) (db : σ) (e : String),
      decode message = .error e →
      readerTask decode uc id c conn (.ok message :: rest) db =
        (.writeJSON "error" "invalid message format" ::
          (readerTask decode uc id c conn rest db).1,
          (readerTask decode uc id c conn rest db).2) ∧
      createPostArgs (readerTask decode uc id c conn (.ok message :: rest) db).1 =
        createPostArgs (readerTask decode uc id c conn rest db).1 ∧
      hubEvents (readerTask decode uc id c conn (.ok message :: rest) db).1 =
        hubEvents (readerTask decode uc id c conn rest db).1) ∧
    (∀ (reads : List (Except String String)) (db : σ),
      (Action.submitUnregister c ∈ (readerTask decode uc id c conn reads db).1 ↔
        ∃ e, Except.error e ∈ reads) ∧
      (Action.connClose conn ∈ (readerTask decode uc id c conn reads db).1 ↔
        ∃ e, Except.error e ∈ reads)) := by
  refine ⟨fun message rest db e hd => ?_, fun reads db =>
    readerTask_deferred decode uc id c conn reads db⟩
  have h1 : readerTask decode uc id c conn (.ok message :: rest) db =
      (.writeJSON "error" "invalid message format" ::
        (readerTask decode uc id c conn rest db).1,
        (readerTask decode uc id c conn rest db).2) := by
    simp only [readerTask, hd]
  refine ⟨h1, ?_, ?_⟩
  · rw [h1]
    rfl
  · rw [h1]
    rfl

/-- C12 on the frame `oops`, which the sample decoder rejects, followed by
the frame `hi`: the first is answered with the error acknowledgment and the
Reader goes on to persist and submit the second; it has not left its loop. -/
theorem protocol_error_recovered_witness :
    readerTask sampleDecode sampleUseCase 7 0 0 [.ok "oops", .ok "hi"] 0 =
      ([.writeJSON "error" "invalid message format",
        .createPost { ID := 0, Content := "hi", CreateAt := 0, ThreadID := 7, UserID := 5 },
        .submitChat { ID := 1, Content := "hi", CreateAt := 0, ThreadID := 7, UserID := 5 }],
        1) ∧
    Action.submitUnregister 0 ∉
      (readerTask sampleDecode sampleUseCase 7 0 0 [.ok "oops", .ok "hi"] 0).1 := by
  obtain ⟨a, _, _⟩ := (protocol_error_recovered sampleDecode sampleUseCase 7 0 0).1 "oops"
    [.ok "hi"] 0 "invalid character" rfl
  refine ⟨by rw [a]; decide, ?_⟩
  rw [((protocol_error_recovered sampleDecode sampleUseCase 7 0 0).2 [.ok "oops", .ok "hi"]
    0).1]
  rintro ⟨e, he⟩
  simp at he

/-- C13, invalid thread identifier: when the upgrade succeeded and integer
parsing rejects the id path parameter, `ThreadChat` writes a close frame,
closes the transport and returns; it allocates no client, submits no register
event and starts none of the replay, Reader and Writer tasks. -/
theorem invalid_thread_id_closes (conn : Nat) (atoi : String → Except String Int)
    (param : String) (c : ClientPtr) (e : String) (hp : atoi param = .error e) :
    ThreadChat (.ok conn) atoi param c =
      ([.writeMessage .close "Invalid thread ID", .connClose conn], none) ∧
    (∀ x, Action.submitRegister x ∉ (ThreadChat (.ok conn) atoi param c).1) ∧
    (∀ t, Action.start t ∉ (ThreadChat (.ok conn) atoi param c).1) ∧
    hubEvents (ThreadChat (.ok conn) atoi param c).1 = [] := by
  have h1 : ThreadChat (.ok conn) atoi param c =
      ([.writeMessage .close "Invalid thread ID", .connClose conn], none) := by
    simp only [ThreadChat, hp]
  rw [h1]
  refine ⟨rfl, fun x hx => ?_, fun t ht => ?_, rfl⟩
  · simp at hx
  · simp at ht

/-- C13 on the path parameter `abc`, which the sample parser rejects. -/
theorem invalid_thread_id_closes_witness :
    ThreadChat (.ok 4) sampleAtoi "abc" 3 =
      ([.writeMessage .close "Invalid thread ID", .connClose 4], none) :=
  (invalid_thread_id_closes 4 sampleAtoi "abc" 3 "invalid syntax" rfl).1

/-! ## Claims on the Writer task and on who evicts -/

/-- The Writer sends nothing to the hub. -/
theorem writerLoop_hubEvents (marshal : Post → Except String String)
    (write : Nat → Except String Unit) (conn : Nat) (closed : Bool) (buf : List Post) :
    ∀ n, hubEvents (writerLoop marshal write conn closed buf n).1 = [] := by
  induction buf with
  | nil =>
    intro n
    cases closed <;> rfl
  | cons message rest ih =>
    intro n
    simp only [writerLoop]
    cases marshal message with
    | error e => exact ih n
    | ok postBytes =>
      cases write n with
      | error e => rfl
      | ok u =>
        simp only [hubEvents]
        exact ih (n + 1)

/-- The Writer never performs the send `hub.unregister <- client`. -/
theorem writerLoop_no_unregister (marshal : Post → Except String String)
    (write : Nat → Except String Unit) (conn : Nat) (closed : Bool) (buf : List Post) :
    ∀ n x, Action.submitUnregister x ∉ (writerLoop marshal write conn closed buf n).1 := by
  induction buf with
  | nil =>
    intro n x
    cases closed <;> simp [writerLoop]
  | cons message rest ih =>
    intro n x
    simp only [writerLoop]
    cases marshal message with
    | error e => exact ih n x
    | ok postBytes =>
      cases write n with
      | error e => simp
      | ok u =>
        simp only [List.mem_cons, reduceCtorEq, false_or]
        exact ih (n + 1) x

/-- On a closed queue the Writer returns. -/
theorem writerLoop_closed (marshal : Post → Except String String)
    (write : Nat → Except String Unit) (conn : Nat) (buf : List Post) :
    ∀ n, (writerLoop marshal write conn true buf n).2.1 = .done := by
  induction buf with
  | nil => intro n; rfl
  | cons message rest ih =>
    intro n
    simp only [writerLoop]
    cases marshal message with
    | error e => exact ih n
    | ok postBytes =>
      cases write n with
      | error e => rfl
      | ok u => exact ih (n + 1)

/-- A Writer that has returned found its queue closed or had a write fail,
and its last action was to close the transport. -/
theorem writerLoop_done (marshal : Post → Except String String)
    (write : Nat → Except String Unit) (conn : Nat) (closed : Bool) (buf : List Post) :
    ∀ n, (writerLoop marshal write conn closed buf n).2.1 = .done →
      (closed = true ∨ ∃ k e, write k = .error e) ∧
      (writerLoop marshal write conn closed buf n).1.getLast? = some (.connClose conn) := by
  induction buf with
  | nil =>
    intro n
    cases closed
    · intro hd
      simp [writerLoop] at hd
    · intro _
      exact ⟨Or.inl rfl, rfl⟩
  | cons message rest ih =>
    intro n
    simp only [writerLoop]
    cases marshal message with
    | error e => exact ih n
    | ok postBytes =>
      cases hw : write n with
      | error e =>
        intro _
        exact ⟨Or.inr ⟨n, e, hw⟩, rfl⟩
      | ok u =>
        intro hd
        obtain ⟨a, b⟩ := ih (n + 1) hd
        refine ⟨a, ?_⟩
        simp only [List.getLast?_cons, b, Option.getD_some]

/-- A failing write ends the Writer: it closes the transport and returns,
leaving the rest of the queue. -/
theorem writerLoop_write_fails (marshal : Post → Except String String)
    (write : Nat → Except String Unit) (conn : Nat) (closed : Bool) (message : Post)
    (rest : List Post) (n : Nat) (postBytes e : String)
    (hm : marshal message = .ok postBytes) (hw : write n = .error e) :
    writerLoop marshal write conn closed (message :: rest) n =
      ([.writeMessage .text postBytes, .connClose conn], .done, rest) := by
  simp only [writerLoop, hm, hw]

/-- C14 as stated fails: a Writer whose first transport write fails writes
the frame, closes the transport and returns; it performs no send on the hub's
unregister channel, and nothing it did reaches the hub. -/
theorem writer_unregister_counterexample :
    writerTask sampleMarshal brokenWrite 0 { cap := 256, buf := [samplePost], closed := false } =
      ([.writeMessage .text "hi", .connClose 0], .done, []) ∧
    Action.submitUnregister 0 ∉
      (writerTask sampleMarshal brokenWrite 0
        { cap := 256, buf := [samplePost], closed := false }).1 ∧
    hubEvents (writerTask sampleMarshal brokenWrite 0
      { cap := 256, buf := [samplePost], closed := false }).1 = [] := by
  refine ⟨by decide, by decide, by decide⟩

/-- The Writer has returned exactly when its queue is closed or one of the
writes it has to perform fails. -/
theorem writerLoop_done_iff (marshal : Post → Except String String)
    (write : Nat → Except String Unit) (conn : Nat) (closed : Bool) (buf : List Post) :
    ∀ n, (writerLoop marshal write conn closed buf n).2.1 = .done ↔
      (closed = true ∨
        ∃ k e, k < (marshalled marshal buf).length ∧ write (n + k) = .error e) := by
  induction buf with
  | nil =>
    intro n
    cases closed <;> simp [writerLoop, marshalled]
  | cons message rest ih =>
    intro n
    cases hm : marshal message with
    | error e =>
      simp only [writerLoop, marshalled, hm]
      exact ih n
    | ok postBytes =>
      cases hw : write n with
      | error e =>
        simp only [writerLoop, marshalled, hm, hw, true_iff]
        exact Or.inr ⟨0, e, by simp, hw⟩
      | ok u =>
        simp only [writerLoop, marshalled, hm, hw]
        rw [ih (n + 1)]
        constructor
        · rintro (h | ⟨k, e, hk, he⟩)
          · exact Or.inl h
          · refine Or.inr ⟨k + 1, e, by simpa using hk, ?_⟩
            rw [show n + (k + 1) = n + 1 + k by omega]
            exact he
        · rintro (h | ⟨k, e, hk, he⟩)
          · exact Or.inl h
          · cases k with
            | zero =>
              rw [Nat.add_zero, hw] at he
              cases he
            | succ j =>
              refine Or.inr ⟨j, e, by simpa using hk, ?_⟩
              rw [show n + 1 + j = n + (j + 1) by omega]
              exact he

/-- The first failing write ends the Writer: it has written the frames up to
and including the failing one, closes the transport and returns. -/
theorem writerLoop_first_failure (marshal : Post → Except String String)
    (write : Nat → Except String Unit) (conn : Nat) (closed : Bool) (buf : List Post) :
    ∀ n k e, k < (marshalled marshal buf).length →
      (∀ i, i < k → ∃ u, write (n + i) = .ok u) → write (n + k) = .error e →
      (writerLoop marshal write conn closed buf n).1 =
        ((marshalled marshal buf).take (k + 1)).map (Action.writeMessage .text) ++
          [.connClose conn] ∧
      (writerLoop marshal write conn closed buf n).2.1 = .done := by
  induction buf with
  | nil =>
    intro n k e hk
    simp [marshalled] at hk
  | cons message rest ih =>
    intro n k e hk hpre hfail
    cases hm : marshal message with
    | error e1 =>
      simp only [marshalled, hm] at hk
      simp only [writerLoop, marshalled, hm]
      exact ih n k e hk hpre hfail
    | ok postBytes =>
      simp only [marshalled, hm, List.length_cons] at hk
      cases k with
      | zero =>
        rw [Nat.add_zero] at hfail
        constructor
        · simp [writerLoop, marshalled, hm, hfail]
        · simp [writerLoop, hm, hfail]
      | succ j =>
        obtain ⟨u, hu⟩ := hpre 0 (Nat.succ_pos j)
        rw [Nat.add_zero] at hu
        have hpre1 : ∀ i, i < j → ∃ u, write (n + 1 + i) = .ok u := by
          intro i hi
          rw [show n + 1 + i = n + (i + 1) by omega]
          exact hpre (i + 1) (by omega)
        have hfail1 : write (n + 1 + j) = .error e := by
          rw [show n + 1 + j = n + (j + 1) by omega]
          exact hfail
        obtain ⟨a, b⟩ := ih (n + 1) j e (by omega) hpre1 hfail1
        simp only [writerLoop, marshalled, hm, hu]
        exact ⟨by rw [a]; rfl, b⟩

/-- When every write it has to perform succeeds, the Writer writes every
frame; it then closes the transport and returns if the queue is closed, and
waits for the next message if the queue is open. -/
theorem writerLoop_all_ok (marshal : Post → Except String String)
    (write : Nat → Except String Unit) (conn : Nat) (closed : Bool) (buf : List Post) :
    ∀ n, (∀ k, k < (marshalled marshal buf).length → ∃ u, write (n + k) = .ok u) →
      (writerLoop marshal write conn closed buf n).1 =
        (marshalled marshal buf).map (Action.writeMessage .text) ++
          (if closed = true then [.connClose conn] else []) ∧
      (writerLoop marshal write conn closed buf n).2.1 =
        (if closed = true then .done else .waiting) ∧
      (writerLoop marshal write conn closed buf n).2.2 = [] := by
  induction buf with
  | nil =>
    intro n _
    cases closed <;> simp [writerLoop, marshalled]
  | cons message rest ih =>
    intro n hok
    cases hm : marshal message with
    | error e1 =>
      simp only [marshalled, hm] at hok
      simp only [writerLoop, marshalled, hm]
      exact ih n hok
    | ok postBytes =>
      simp only [marshalled, hm, List.length_cons] at hok
      obtain ⟨u, hu⟩ := hok 0 (Nat.succ_pos _)
      rw [Nat.add_zero] at hu
      have hok1 : ∀ k, k < (marshalled marshal rest).length →
          ∃ u, write (n + 1 + k) = .ok u := by
        intro k hk
        rw [show n + 1 + k = n + (k + 1) by omega]
        exact hok (k + 1) (by omega)
      obtain ⟨a, b, c⟩ := ih (n + 1) hok1
      simp only [writerLoop, marshalled, hm, hu]
      exact ⟨by rw [a]; rfl, b, c⟩

/-- C14 amended: the Writer task has returned if and only if its queue is
closed or one of the transport writes it has to perform fails.  At the first
failing write it has written the frames up to that one, closes the transport
and returns; when no write fails it writes every frame and then closes the
transport and returns if the queue is closed, and waits for the next message
if the queue is open.  Whenever it returns its last action is to close the
transport, and it never sends on the hub's unregister channel nor submits
any other event to the hub. -/
theorem writer_termination (marshal : Post → Except String String)
    (write : Nat → Except String Unit) (conn : Nat) (ch : Chan) :
    ((writerTask marshal write conn ch).2.1 = .done ↔
      (ch.closed = true ∨
        ∃ k e, k < (marshalled marshal ch.buf).length ∧ write k = .error e)) ∧
    (∀ k e, k < (marshalled marshal ch.buf).length →
      (∀ i, i < k → ∃ u, write i = .ok u) → write k = .error e →
      (writerTask marshal write conn ch).1 =
        ((marshalled marshal ch.buf).take (k + 1)).map (Action.writeMessage .text) ++
          [.connClose conn] ∧
      (writerTask marshal write conn ch).2.1 = .done) ∧
    ((∀ k, k < (marshalled marshal ch.buf).length → ∃ u, write k = .ok u) →
      (writerTask marshal write conn ch).1 =
        (marshalled marshal ch.buf).map (Action.writeMessage .text) ++
          (if ch.closed = true then [.connClose conn] else []) ∧
      (writerTask marshal write conn ch).2.1 =
        (if ch.closed = true then .done else .waiting) ∧
      (writerTask marshal write conn ch).2.2 = []) ∧
    (ch.closed = true → (writerTask marshal write conn ch).2.1 = .done) ∧
    ((writerTask marshal write conn ch).2.1 = .done →
      (ch.closed = true ∨ ∃ k e, write k = .error e) ∧
      (writerTask marshal write conn ch).1.getLast? = some (.connClose conn)) ∧
    (∀ (message : Post) (rest : List Post) (postBytes e : String),
      ch.buf = message :: rest → marshal message = .ok postBytes → write 0 = .error e →
      writerTask marshal write conn ch =
        ([.writeMessage .text postBytes, .connClose conn], .done, rest)) ∧
    (∀ x, Action.submitUnregister x ∉ (writerTask marshal write conn ch).1) ∧
    hubEvents (writerTask marshal write conn ch).1 = [] := by
  refine ⟨?_, fun k e hk hpre hfail => ?_, fun hok => ?_, fun hc => ?_, fun hd => ?_,
    fun message rest postBytes e hb hm hw => ?_, fun x => ?_, ?_⟩
  · have := writerLoop_done_iff marshal write conn ch.closed ch.buf 0
    simpa only [Nat.zero_add] using this
  · exact writerLoop_first_failure marshal write conn ch.closed ch.buf 0 k e hk
      (fun i hi => by rw [Nat.zero_add]; exact hpre i hi) (by rw [Nat.zero_add]; exact hfail)
  · exact writerLoop_all_ok marshal write conn ch.closed ch.buf 0
      (fun k hk => by rw [Nat.zero_add]; exact hok k hk)
  · unfold writerTask
    rw [hc]
    exact writerLoop_closed marshal write conn ch.buf 0
  · exact writerLoop_done marshal write conn ch.closed ch.buf 0 hd
  · unfold writerTask
    rw [hb]
    exact writerLoop_write_fails marshal write conn ch.closed message rest 0 postBytes e hm hw
  · exact writerLoop_no_unregister marshal write conn ch.closed ch.buf 0 x
  · exact writerLoop_hubEvents marshal write conn ch.closed ch.buf 0

/-- C14 amended, on an open queue holding three messages and a transport
whose second write fails: the Writer writes two frames, closes the transport
and returns, leaving the third message; and on a closed queue holding one
message over a working transport it writes the message, closes the transport
and returns. -/
theorem writer_termination_witness :
    writerTask sampleMarshal secondWriteFails 0
        { cap := 256, buf := [samplePost, samplePost, samplePost], closed := false } =
      ([.writeMessage .text "hi", .writeMessage .text "hi", .connClose 0], .done,
        [samplePost]) ∧
    ((writerTask sampleMarshal secondWriteFails 0
        { cap := 256, buf := [samplePost, samplePost, samplePost], closed := false }).1 =
      [.writeMessage .text "hi", .writeMessage .text "hi", .connClose 0] ∧
      (writerTask sampleMarshal secondWriteFails 0
        { cap := 256, buf := [samplePost, samplePost, samplePost], closed := false }).2.1 =
        .done) ∧
    (writerTask sampleMarshal goodWrite 0
      { cap := 256, buf := [samplePost], closed := true }).2.1 = .done :=
  ⟨by decide,
    (writer_termination sampleMarshal secondWriteFails 0
      { cap := 256, buf := [samplePost, samplePost, samplePost], closed := false }).2.1 1
      "broken pipe" (by decide)
      (fun i hi => by
        have h0 : i = 0 := by omega
        subst h0
        exact ⟨(), rfl⟩) rfl,
    (writer_termination sampleMarshal goodWrite 0
      { cap := 256, buf := [samplePost], closed := true }).2.2.2.1 rfl⟩

/-- The Reader submits unregister or closes a transport only in its deferred
function, that is after a failed read. -/
theorem readerTask_closes_only_deferred {σ : Type} (decode : String → Except String Post)
    (uc : PostUseCase σ) (id : Int) (c : ClientPtr) (conn : Nat)
    (reads : List (Except String String)) :
    ∀ (db : σ) (x : Nat),
      (Action.submitUnregister x ∈ (readerTask decode uc id c conn reads db).1 ∨
        Action.connClose x ∈ (readerTask decode uc id c conn reads db).1) →
      ∃ e, Except.error e ∈ reads := by
  induction reads with
  | nil =>
    intro db x hx
    simp [readerTask] at hx
  | cons r rest ih =>
    intro db x hx
    cases r with
    | error e => exact ⟨e, List.mem_cons_self _ _⟩
    | ok message =>
      have key : ∀ db1 : σ,
          (Action.submitUnregister x ∈ (readerTask decode uc id c conn rest db1).1 ∨
            Action.connClose x ∈ (readerTask decode uc id c conn rest db1).1) →
          ∃ e, Except.error e ∈ Except.ok message :: rest := by
        intro db1 h1
        obtain ⟨e, he⟩ := ih db1 x h1
        exact ⟨e, List.mem_cons_of_mem _ he⟩
      simp only [readerTask] at hx
      cases hd : decode message with
      | error e =>
        rw [hd] at hx
        simp only [List.mem_cons, reduceCtorEq, false_or] at hx
        exact key db hx
      | ok decoded =>
        rw [hd] at hx
        simp only at hx
        cases hc : uc.CreatePost (stampThread id decoded) db with
        | mk res db1 =>
          rw [hc] at hx
          cases res with
          | error e =>
            simp only [List.mem_cons, reduceCtorEq, false_or] at hx
            exact key db1 hx
          | ok created =>
            simp only [List.mem_cons, reduceCtorEq, false_or] at hx
            exact key db1 hx

/-- The Writer closes a transport only when its queue is closed or a write
failed. -/
theorem writerLoop_closes_only (marshal : Post → Except String String)
    (write : Nat → Except String Unit) (conn : Nat) (closed : Bool) (buf : List Post) :
    ∀ n x, Action.connClose x ∈ (writerLoop marshal write conn closed buf n).1 →
      closed = true ∨ ∃ k e, write k = .error e := by
  induction buf with
  | nil =>
    intro n x hx
    cases closed
    · simp [writerLoop] at hx
    · exact Or.inl rfl
  | cons message rest ih =>
    intro n x hx
    simp only [writerLoop] at hx
    cases hm : marshal message with
    | error e =>
      rw [hm] at hx
      exact ih n x hx
    | ok postBytes =>
      rw [hm] at hx
      simp only at hx
      cases hw : write n with
      | error e => exact Or.inr ⟨n, e, hw⟩
      | ok u =>
        rw [hw] at hx
        simp only [List.mem_cons, reduceCtorEq, false_or] at hx
        exact ih (n + 1) x hx

/-- The replay loop on an open queue without a free slot: the first post
takes the `default` branch. -/
theorem replayLoop_full (c : ClientPtr) (conn : Nat) (post : Post) (rest : List Post)
    (ch : Chan) (ho : ch.closed = false) (hl : ch.cap ≤ ch.buf.length) :
    replayLoop c conn (post :: rest) ch =
      .ok (ch, [.submitUnregister c, .connClose conn]) := by
  have hn : ¬ ch.buf.length < ch.cap := Nat.not_lt.mpr hl
  simp only [replayLoop, Chan.trySend, ho, Bool.false_eq_true, if_false, hn]

/-- C15 as stated fails: the history-replay task, finding the queue of client
0 filled with 256 messages, reacts by submitting unregister for client 0 and
closing its transport; when the hub processes what the task submitted, client
0 leaves the registry and its queue is closed. -/
theorem replay_evicts_counterexample :
    replayLoop 0 0 [samplePost] (fullHub.heap 0).send =
      .ok ((fullHub.heap 0).send, [.submitUnregister 0, .connClose 0]) ∧
    ∃ h1, fullHub.Run (hubEvents [.submitUnregister 0, .connClose 0]) = .ok h1 ∧
      0 ∉ h1.clients ∧ (h1.heap 0).send.closed = true := by
  refine ⟨replayLoop_full 0 0 samplePost [] (fullHub.heap 0).send rfl
    (List.length_replicate 256 samplePost).ge, ?_⟩
  obtain ⟨h1, hs⟩ := Hub.step_total fullHub (.unregister 0) (fun _ _ => rfl)
  have hrun : fullHub.Run (hubEvents [.submitUnregister 0, .connClose 0]) = .ok h1 := by
    show fullHub.Run [.unregister 0] = .ok h1
    simp only [Hub.Run, hs]
  refine ⟨h1, hrun, ?_, ?_⟩
  · intro hm
    rcases (Hub.step_mem hs 0).mp hm with ⟨_, b⟩ | b
    · exact b rfl
    · cases b
  · have hopen := Hub.step_open hs 0
    cases hcl : (h1.heap 0).send.closed with
    | true => rfl
    | false =>
      have : (0 : ClientPtr) ∈ fullHub.clients ∧ fullHub.deregisters 0 (.unregister 0) :=
        ⟨by decide, rfl⟩
      exact absurd this (hopen.mp hcl).2

/-- C15 amended: besides the hub's broadcast case, the history-replay task is
the one component that reacts to a full outbound queue: on an open queue
without a free slot it submits unregister for its client and closes the
transport.  The Reader submits unregister or closes a transport only after a
failed read, and the Writer never submits unregister and closes a transport
only when its queue is closed or a write failed. -/
theorem eviction_outside_hub {σ : Type} (decode : String → Except String Post)
    (uc : PostUseCase σ) (marshal : Post → Except String String)
    (write : Nat → Except String Unit) (id : Int) (c : ClientPtr) (conn : Nat) :
    (∀ (post : Post) (rest : List Post) (ch : Chan), ch.closed = false →
      ch.cap ≤ ch.buf.length →
      replayLoop c conn (post :: rest) ch =
        .ok (ch, [.submitUnregister c, .connClose conn])) ∧
    (∀ (reads : List (Except String String)) (db : σ) (x : Nat),
      (Action.submitUnregister x ∈ (readerTask decode uc id c conn reads db).1 ∨
        Action.connClose x ∈ (readerTask decode uc id c conn reads db).1) →
      ∃ e, Except.error e ∈ reads) ∧
    (∀ (ch : Chan) (x : Nat),
      Action.submitUnregister x ∉ (writerTask marshal write conn ch).1 ∧
      (Action.connClose x ∈ (writerTask marshal write conn ch).1 →
        ch.closed = true ∨ ∃ k e, write k = .error e)) :=
  ⟨fun post rest ch ho hl => replayLoop_full c conn post rest ch ho hl,
    fun reads db x => readerTask_closes_only_deferred decode uc id c conn reads db x,
    fun ch x => ⟨writerLoop_no_unregister marshal write conn ch.closed ch.buf 0 x,
      writerLoop_closes_only marshal write conn ch.closed ch.buf 0 x⟩⟩

/-- C15 amended, on concrete tasks: the replay task on the full queue of
client 0 submits unregister and closes the transport, and the Writer of a full
open queue over a working transport sends nothing to the hub. -/
theorem eviction_outside_hub_witness :
    replayLoop 0 0 [samplePost] (fullHub.heap 0).send =
      .ok ((fullHub.heap 0).send, [.submitUnregister 0, .connClose 0]) ∧
    Action.submitUnregister 0 ∉
      (writerTask sampleMarshal goodWrite 0 (fullHub.heap 0).send).1 :=
  ⟨(eviction_outside_hub sampleDecode sampleUseCase sampleMarshal goodWrite 7 0 0).1
      samplePost [] (fullHub.heap 0).send rfl (List.length_replicate 256 samplePost).ge,
    ((eviction_outside_hub sampleDecode sampleUseCase sampleMarshal goodWrite 7 0 0).2.2
      (fullHub.heap 0).send 0).1⟩

/-! ## The queue bound -/

/-- An event processed by `Run` keeps the capacity of every queue and keeps
every queue within its capacity. -/
theorem Hub.step_queue {h h1 : Hub} {e : Event} (hv : h.step e = .ok h1) (p : ClientPtr) :
    (h1.heap p).send.cap = (h.heap p).send.cap ∧
    ((h.heap p).send.buf.length ≤ (h.heap p).send.cap →
      (h1.heap p).send.buf.length ≤ (h1.heap p).send.cap) := by
  cases e with
  | register c =>
    simp only [Hub.step, Hub.onRegister, Except.ok.injEq] at hv
    subst hv
    exact ⟨rfl, fun k => k⟩
  | unregister c =>
    simp only [Hub.step, Hub.onUnregister_eq] at hv
    split_ifs at hv with hm hc
    · cases hv
      by_cases hp : p = c
      · subst hp
        simp [Hub.deleteClient, Hub.setSend]
      · simp [Hub.deleteClient, Hub.setSend, hp]
    · cases hv
      exact ⟨rfl, fun k => k⟩
  | chat m =>
    simp only [Hub.step] at hv
    by_cases hm : p ∈ h.clients
    · by_cases ht : (h.heap p).threadID = m.ThreadID
      · by_cases hl : (h.heap p).send.buf.length < (h.heap p).send.cap
        · rw [(Hub.onChat_room hv p hm ht hl).2]
          refine ⟨rfl, fun _ => ?_⟩
          simp only [List.length_append, List.length_singleton]
          omega
        · rw [(Hub.onChat_full hv p hm ht (not_lt.mp hl)).2]
          exact ⟨rfl, fun k => k⟩
      · rw [(Hub.onChat_other hv p (Or.inr ht)).1]
        exact ⟨rfl, fun k => k⟩
    · rw [(Hub.onChat_other hv p (Or.inl hm)).1]
      exact ⟨rfl, fun k => k⟩

/-- A step of the system keeps the capacity of every queue and keeps every
queue within its capacity. -/
theorem Hub.sysStep_queue {h h1 : Hub} {s : SysStep} (hv : h.sysStep s = .ok h1)
    (p : ClientPtr) :
    (h1.heap p).send.cap = (h.heap p).send.cap ∧
    ((h.heap p).send.buf.length ≤ (h.heap p).send.cap →
      (h1.heap p).send.buf.length ≤ (h1.heap p).send.cap) := by
  cases s with
  | hub e => exact Hub.step_queue hv p
  | replaySend c post =>
    simp only [Hub.sysStep, Hub.replaySend, Chan.trySend] at hv
    by_cases hc : (h.heap c).send.closed = true
    · simp [hc] at hv
    · by_cases hl : (h.heap c).send.buf.length < (h.heap c).send.cap
      · simp only [hc, hl, if_false, if_true, Bool.false_eq_true, Except.ok.injEq] at hv
        subst hv
        by_cases hp : p = c
        · subst hp
          refine ⟨by simp [Hub.setSend], fun _ => ?_⟩
          simp only [Hub.setSend, if_true, List.length_append, List.length_singleton]
          omega
        · simp [Hub.setSend, hp]
      · simp only [hc, hl, if_false, Bool.false_eq_true, Except.ok.injEq] at hv
        subst hv
        exact ⟨rfl, fun k => k⟩
  | writerRecv c =>
    simp only [Hub.sysStep, Except.ok.injEq] at hv
    subst hv
    by_cases hp : p = c
    · subst hp
      refine ⟨by simp [Hub.writerRecv, Hub.setSend], fun k => ?_⟩
      simp only [Hub.writerRecv, Hub.setSend, if_true, List.length_tail]
      omega
    · simp [Hub.writerRecv, Hub.setSend, hp]

/-- A run of the system keeps the capacity of every queue and keeps every
queue within its capacity. -/
theorem Hub.sysRun_queue (steps : List SysStep) :
    ∀ {h h1 : Hub}, h.sysRun steps = .ok h1 → ∀ p,
      (h1.heap p).send.cap = (h.heap p).send.cap ∧
      ((h.heap p).send.buf.length ≤ (h.heap p).send.cap →
        (h1.heap p).send.buf.length ≤ (h1.heap p).send.cap) := by
  induction steps with
  | nil =>
    intro h h1 hv p
    simp only [Hub.sysRun, Except.ok.injEq] at hv
    subst hv
    exact ⟨rfl, fun k => k⟩
  | cons s ss ih =>
    intro h h1 hv p
    simp only [Hub.sysRun] at hv
    cases hs : h.sysStep s with
    | error e => rw [hs] at hv; cases hv
    | ok h0 =>
      rw [hs] at hv
      obtain ⟨a, b⟩ := Hub.sysStep_queue hs p
      obtain ⟨a1, b1⟩ := ih hv p
      exact ⟨a1.trans a, fun k => b1 (b k)⟩

/-- A result with `isOk` is an `ok`. -/
theorem exists_of_isOk {α : Type} (r : Except Panic α) (hr : r.isOk = true) :
    ∃ a, r = .ok a := by
  cases r with
  | error e => cases hr
  | ok a => exact ⟨a, rfl⟩

/-- C16, bounded queue: for a request whose id parses, `ThreadChat` submits
register for a client with an empty, open outbound queue of capacity 256
bound to the parsed thread id; and over client objects created that way, in
every state reached from the empty hub by hub events, replay iterations and
Writer receives, every queue has capacity 256 and holds at most 256 messages. -/
theorem bounded_queue :
    (∀ (conn : Nat) (atoi : String → Except String Int) (param : String) (c : ClientPtr)
      (id : Int), atoi param = .ok id →
      ThreadChat (.ok conn) atoi param c =
        ([.submitRegister c, .start .replay, .start .reader, .start .writer],
          some { conn := conn, send := { cap := 256, buf := [], closed := false },
                 threadID := id })) ∧
    (∀ (heap : ClientPtr → Client), (∀ p, ∃ conn id, heap p = newClient conn id) →
      ∀ (steps : List SysStep) (h : Hub), (NewHub heap).sysRun steps = .ok h →
        ∀ p, (h.heap p).send.cap = 256 ∧ (h.heap p).send.buf.length ≤ 256) := by
  refine ⟨fun conn atoi param c id hp => ?_, fun heap hnew steps h hv p => ?_⟩
  · simp only [ThreadChat, hp]
    rfl
  · obtain ⟨conn, id, hc⟩ := hnew p
    have h0 : ((NewHub heap).heap p).send = Chan.make 256 := by
      show (heap p).send = Chan.make 256
      rw [hc]
      rfl
    obtain ⟨a, b⟩ := Hub.sysRun_queue steps hv p
    rw [h0] at a b
    have hcap : (h.heap p).send.cap = 256 := a
    refine ⟨hcap, ?_⟩
    rw [← hcap]
    exact b (Nat.zero_le _)

/-- C16 on a run over the sample clients: client 0 is registered, its replay
enqueues one message, a broadcast adds another and its Writer takes one; the
run completes and the queue of client 0 stays within 256 messages. -/
theorem bounded_queue_witness :
    ∃ h, (NewHub sampleHeap).sysRun
        [.hub (.register 0), .replaySend 0 samplePost, .hub (.chat samplePost),
          .writerRecv 0] = .ok h ∧
      (h.heap 0).send.cap = 256 ∧ (h.heap 0).send.buf.length ≤ 256 := by
  obtain ⟨h, hv⟩ := exists_of_isOk ((NewHub sampleHeap).sysRun
    [.hub (.register 0), .replaySend 0 samplePost, .hub (.chat samplePost),
      .writerRecv 0]) (by decide)
  exact ⟨h, hv, bounded_queue.2 sampleHeap (fun p => ⟨p, _, rfl⟩) _ h hv 0⟩

/-! ## Two broadcasts in a row -/

/-- A sublist of a duplicate-free list is the list filtered by membership in
the sublist. -/
theorem filter_mem_of_sublist {l1 l : List ClientPtr} (hs : l1.Sublist l) (hn : l.Nodup) :
    l.filter (fun x => decide (x ∈ l1)) = l1 := by
  induction hs with
  | slnil => rfl
  | cons a hs ih =>
    rw [List.nodup_cons] at hn
    have ha : a ∉ _ := fun k => hn.1 (hs.subset k)
    rw [List.filter_cons_of_neg (by simpa using ha)]
    exact ih hn.2
  | cons₂ a hs ih =>
    rename_i k1 k
    rw [List.nodup_cons] at hn
    rw [List.filter_cons_of_pos (by simp)]
    congr 1
    rw [← ih hn.2]
    apply List.filter_congr
    intro x hx
    have hxa : x ≠ a := fun e => hn.1 (e ▸ hx)
    simp [hxa, ih hn.2]

/-- Two sublists of a duplicate-free list with the same members are equal. -/
theorem sublist_ext {l1 l2 l : List ClientPtr} (h1 : l1.Sublist l) (h2 : l2.Sublist l)
    (hn : l.Nodup) (hm : ∀ x, x ∈ l1 ↔ x ∈ l2) : l1 = l2 := by
  rw [← filter_mem_of_sublist h1 hn, ← filter_mem_of_sublist h2 hn]
  apply List.filter_congr
  intro x _
  simp [hm x]

/-- Hub states with the same registry and the same client objects are equal. -/
theorem Hub.ext_of {h k : Hub} (hc : h.clients = k.clients) (hh : ∀ p, h.heap p = k.heap p) :
    h = k := by
  cases h with
  | mk c1 n1 f1 =>
    cases k with
    | mk c2 n2 f2 =>
      simp only at hc hh
      subst hc
      have : f1 = f2 := funext hh
      subst this
      rfl

/-- A broadcast only removes keys from the registry, keeping their order. -/
theorem Hub.chatOver_sublist {m : Post} :
    ∀ (order : List ClientPtr) {h h1 : Hub},
      Hub.chatOver m order h = .ok h1 → h1.clients.Sublist h.clients
  | [], h, h1, hv => by
    simp only [Hub.chatOver, Except.ok.injEq] at hv
    subst hv
    exact List.Sublist.refl _
  | c :: cs, h, h1, hv => by
    simp only [Hub.chatOver] at hv
    cases hc : h.chatVisit m c with
    | error e => rw [hc] at hv; cases hv
    | ok h0 =>
      rw [hc] at hv
      have h01 : h0.clients.Sublist h.clients := by
        rw [Hub.chatVisit_eq] at hc
        split_ifs at hc <;> cases hc
        · exact List.Sublist.refl _
        · exact List.erase_sublist c h.clients
        · exact List.Sublist.refl _
      exact (Hub.chatOver_sublist cs hv).trans h01

/-- The only panic a broadcast can raise is the send on a closed queue. -/
theorem Hub.chatOver_error {m : Post} :
    ∀ (order : List ClientPtr) {h : Hub} {e : Panic},
      Hub.chatOver m order h = .error e → e = .sendOnClosed
  | [], h, e, hv => by cases hv
  | c :: cs, h, e, hv => by
    simp only [Hub.chatOver] at hv
    cases hc : h.chatVisit m c with
    | error e1 =>
      rw [hc] at hv
      rw [Hub.chatVisit_eq] at hc
      split_ifs at hc
      cases hc
      cases hv
      rfl
    | ok h0 =>
      rw [hc] at hv
      exact Hub.chatOver_error cs hv

/-- A broadcast never changes the thread a client is bound to. -/
theorem Hub.onChat_threadID {m : Post} {h h1 : Hub} (hv : h.onChat m = .ok h1)
    (p : ClientPtr) : (h1.heap p).threadID = (h.heap p).threadID := by
  by_cases hm : p ∈ h.clients
  · by_cases ht : (h.heap p).threadID = m.ThreadID
    · by_cases hl : (h.heap p).send.buf.length < (h.heap p).send.cap
      · rw [(Hub.onChat_room hv p hm ht hl).2]
      · rw [(Hub.onChat_full hv p hm ht (not_lt.mp hl)).2]
    · rw [(Hub.onChat_other hv p (Or.inr ht)).1]
  · rw [(Hub.onChat_other hv p (Or.inl hm)).1]

/-- What a broadcast does to a client depends only on that client's object
and membership. -/
theorem Hub.onChat_local {m : Post} {h h1 k k1 : Hub} (hv : h.onChat m = .ok h1)
    (kv : k.onChat m = .ok k1) (p : ClientPtr) (hh : k.heap p = h.heap p)
    (hm : p ∈ k.clients ↔ p ∈ h.clients) :
    k1.heap p = h1.heap p ∧ (p ∈ k1.clients ↔ p ∈ h1.clients) := by
  by_cases hp : p ∈ h.clients
  · have kp : p ∈ k.clients := hm.mpr hp
    by_cases ht : (h.heap p).threadID = m.ThreadID
    · have kt : (k.heap p).threadID = m.ThreadID := by rw [hh]; exact ht
      by_cases hl : (h.heap p).send.buf.length < (h.heap p).send.cap
      · have kl : (k.heap p).send.buf.length < (k.heap p).send.cap := by rw [hh]; exact hl
        obtain ⟨a, b⟩ := Hub.onChat_room hv p hp ht hl
        obtain ⟨a1, b1⟩ := Hub.onChat_room kv p kp kt kl
        exact ⟨by rw [b, b1, hh], ⟨fun _ => a, fun _ => a1⟩⟩
      · have kl : (k.heap p).send.cap ≤ (k.heap p).send.buf.length := by
          rw [hh]; exact not_lt.mp hl
        obtain ⟨a, b⟩ := Hub.onChat_full hv p hp ht (not_lt.mp hl)
        obtain ⟨a1, b1⟩ := Hub.onChat_full kv p kp kt kl
        exact ⟨by rw [b, b1, hh], ⟨fun q => absurd q a1, fun q => absurd q a⟩⟩
    · have kt : (k.heap p).threadID ≠ m.ThreadID := by rw [hh]; exact ht
      obtain ⟨a, b⟩ := Hub.onChat_other hv p (Or.inr ht)
      obtain ⟨a1, b1⟩ := Hub.onChat_other kv p (Or.inr kt)
      exact ⟨by rw [a, a1, hh], b1.trans (hm.trans b.symm)⟩
  · have kp : p ∉ k.clients := fun q => hp (hm.mp q)
    obtain ⟨a, b⟩ := Hub.onChat_other hv p (Or.inl hp)
    obtain ⟨a1, b1⟩ := Hub.onChat_other kv p (Or.inl kp)
    exact ⟨by rw [a, a1, hh], b1.trans (hm.trans b.symm)⟩

/-- A broadcast for one thread does not change whether a broadcast for
another thread completes. -/
theorem Hub.onChat_ready_other {m1 m2 : Post} {h a : Hub} (hne : m1.ThreadID ≠ m2.ThreadID)
    (hv : h.onChat m1 = .ok a) :
    (∃ b, a.onChat m2 = .ok b) ↔ ∃ c, h.onChat m2 = .ok c := by
  constructor
  · rintro ⟨b, hb⟩
    refine Hub.chatOver_total h.clients h h.nodup (fun p hp ht => ?_)
    have ht1 : (h.heap p).threadID ≠ m1.ThreadID := fun e => hne (e.symm.trans ht)
    obtain ⟨x, y⟩ := Hub.onChat_other hv p (Or.inr ht1)
    have := Hub.onChat_open hb p (y.mpr hp) (by rw [x]; exact ht)
    unfold Hub.isOpen at this ⊢
    rw [x] at this
    exact this
  · rintro ⟨c, hc⟩
    refine Hub.chatOver_total a.clients a a.nodup (fun p hp ht => ?_)
    have hth : (h.heap p).threadID = m2.ThreadID := by
      rw [← Hub.onChat_threadID hv p]; exact ht
    have ht1 : (h.heap p).threadID ≠ m1.ThreadID := fun e => hne (e.symm.trans hth)
    obtain ⟨x, y⟩ := Hub.onChat_other hv p (Or.inr ht1)
    have := Hub.onChat_open hc p (y.mp hp) hth
    unfold Hub.isOpen at this ⊢
    rw [x]
    exact this

/-- Two broadcasts for different threads, both completing in either order,
end in the same state. -/
theorem Hub.onChat_comm_ok {m1 m2 : Post} {h a b c d : Hub}
    (hne : m1.ThreadID ≠ m2.ThreadID) (ha : h.onChat m1 = .ok a) (hb : a.onChat m2 = .ok b)
    (hc : h.onChat m2 = .ok c) (hd : c.onChat m1 = .ok d) : b = d := by
  have key : ∀ p, b.heap p = d.heap p ∧ (p ∈ b.clients ↔ p ∈ d.clients) := by
    intro p
    by_cases ht : (h.heap p).threadID = m2.ThreadID
    · have ht1 : (h.heap p).threadID ≠ m1.ThreadID := fun e => hne (e.symm.trans ht)
      obtain ⟨x, y⟩ := Hub.onChat_other ha p (Or.inr ht1)
      have hct : (c.heap p).threadID ≠ m1.ThreadID := by
        rw [Hub.onChat_threadID hc p]; exact ht1
      obtain ⟨x1, y1⟩ := Hub.onChat_other hd p (Or.inr hct)
      obtain ⟨x2, y2⟩ := Hub.onChat_local hc hb p x y
      exact ⟨x2.trans x1.symm, y2.trans y1.symm⟩
    · have hat : (a.heap p).threadID ≠ m2.ThreadID := by
        rw [Hub.onChat_threadID ha p]; exact ht
      obtain ⟨x, y⟩ := Hub.onChat_other hb p (Or.inr hat)
      obtain ⟨x1, y1⟩ := Hub.onChat_other hc p (Or.inr ht)
      obtain ⟨x2, y2⟩ := Hub.onChat_local ha hd p x1 y1
      exact ⟨x.trans x2.symm, y.trans y2.symm⟩
  have sb : b.clients.Sublist h.clients :=
    (Hub.chatOver_sublist a.clients hb).trans (Hub.chatOver_sublist h.clients ha)
  have sd : d.clients.Sublist h.clients :=
    (Hub.chatOver_sublist c.clients hd).trans (Hub.chatOver_sublist h.clients hc)
  exact Hub.ext_of (sublist_ext sb sd h.nodup (fun p => (key p).2)) (fun p => (key p).1)

/-- C17, messages for different threads are independent: for every hub state
and every two messages bound to different threads, processing the two
broadcasts in one order gives exactly the result of processing them in the
other order: the same hub state (registry, queue contents, closed flags) when
they complete, and the same panic when they do not. -/
theorem broadcast_threads_commute (h : Hub) (m1 m2 : Post)
    (hne : m1.ThreadID ≠ m2.ThreadID) :
    h.Run [.chat m1, .chat m2] = h.Run [.chat m2, .chat m1] := by
  simp only [Hub.Run, Hub.step]
  cases ha : h.onChat m1 with
  | error e1 =>
    have he1 : e1 = .sendOnClosed := Hub.chatOver_error h.clients ha
    subst he1
    cases hc : h.onChat m2 with
    | error e2 =>
      have he2 : e2 = .sendOnClosed := Hub.chatOver_error h.clients hc
      subst he2
      rfl
    | ok c =>
      simp only
      cases hd : c.onChat m1 with
      | error e3 =>
        have he3 : e3 = .sendOnClosed := Hub.chatOver_error c.clients hd
        subst he3
        rfl
      | ok d =>
        obtain ⟨x, hx⟩ := (Hub.onChat_ready_other (Ne.symm hne) hc).mp ⟨d, hd⟩
        rw [ha] at hx
        cases hx
  | ok a =>
    simp only
    cases hc : h.onChat m2 with
    | error e2 =>
      have he2 : e2 = .sendOnClosed := Hub.chatOver_error h.clients hc
      subst he2
      cases hb : a.onChat m2 with
      | error e3 =>
        have he3 : e3 = .sendOnClosed := Hub.chatOver_error a.clients hb
        subst he3
        rfl
      | ok b =>
        obtain ⟨x, hx⟩ := (Hub.onChat_ready_other hne ha).mp ⟨b, hb⟩
        rw [hc] at hx
        cases hx
    | ok c =>
      simp only
      obtain ⟨b, hb⟩ := (Hub.onChat_ready_other hne ha).mpr ⟨c, hc⟩
      obtain ⟨d, hd⟩ := (Hub.onChat_ready_other (Ne.symm hne) hc).mpr ⟨a, ha⟩
      rw [hb, hd, Hub.onChat_comm_ok hne ha hb hc hd]

/-- C17 on the sample hub with a thread-7 and a thread-8 message: both orders
complete in the same state, in which client 0 holds the thread-7 message and
client 2 the thread-8 message. -/
theorem broadcast_threads_commute_witness :
    sampleHub.Run [.chat samplePost, .chat { samplePost with ThreadID := 8 }] =
      sampleHub.Run [.chat { samplePost with ThreadID := 8 }, .chat samplePost] ∧
    ∃ h1, sampleHub.Run [.chat samplePost, .chat { samplePost with ThreadID := 8 }] = .ok h1 ∧
      (h1.heap 0).send.buf = [samplePost] ∧
      (h1.heap 2).send.buf = [{ samplePost with ThreadID := 8 }] := by
  refine ⟨broadcast_threads_commute sampleHub samplePost { samplePost with ThreadID := 8 }
    (by decide), ?_⟩
  obtain ⟨h1, hv⟩ := exists_of_isOk
    (sampleHub.Run [.chat samplePost, .chat { samplePost with ThreadID := 8 }]) (by decide)
  refine ⟨h1, hv, ?_, ?_⟩
  · have : (match sampleHub.Run [.chat samplePost, .chat { samplePost with ThreadID := 8 }] with
        | .ok k => (k.heap 0).send.buf | .error _ => []) = [samplePost] := by decide
    rw [hv] at this
    exact this
  · have : (match sampleHub.Run [.chat samplePost, .chat { samplePost with ThreadID := 8 }] with
        | .ok k => (k.heap 2).send.buf | .error _ => []) =
          [{ samplePost with ThreadID := 8 }] := by decide
    rw [hv] at this
    exact this

/-- A broadcast keeps the property that registered connections have open
queues. -/
theorem Hub.onChat_registeredOpen {m : Post} {h a : Hub} (ho : h.RegisteredOpen)
    (ha : h.onChat m = .ok a) : a.RegisteredOpen := by
  intro c hc
  have hs : h.step (.chat m) = .ok a := ha
  rcases (Hub.step_mem hs c).mp hc with ⟨x, y⟩ | x
  · exact (Hub.step_open hs c).mpr ⟨ho c x, fun k => y k.2⟩
  · cases x

/-- C18, submission order is preserved per connection: two broadcasts of the
same thread processed in the order `m1`, `m2` complete in every state whose
registered connections have open queues, and whenever they complete every
connection of that thread that is still registered afterwards was registered
before and has its previous queue followed by `m1` and then `m2`, so `m1`
immediately followed by `m2` are the last two entries of its queue. -/
theorem broadcast_order_preserved (h : Hub) (m1 m2 : Post)
    (hsame : m1.ThreadID = m2.ThreadID) :
    (h.RegisteredOpen → ∃ b, h.Run [.chat m1, .chat m2] = .ok b) ∧
    ∀ b, h.Run [.chat m1, .chat m2] = .ok b →
      ∀ c ∈ b.clients, (b.heap c).threadID = m1.ThreadID →
        c ∈ h.clients ∧ (b.heap c).send.buf = (h.heap c).send.buf ++ [m1, m2] ∧
        (b.heap c).send.buf.getLast? = some m2 ∧
        (b.heap c).send.buf.dropLast.getLast? = some m1 := by
  refine ⟨fun ho => ?_, fun b hv c hc ht => ?_⟩
  · obtain ⟨a, ha⟩ := Hub.onChat_total h m1 ho
    obtain ⟨b, hb⟩ := Hub.onChat_total a m2 (Hub.onChat_registeredOpen ho ha)
    exact ⟨b, by simp only [Hub.Run, Hub.step, ha, hb]⟩
  · simp only [Hub.Run, Hub.step] at hv
    cases ha : h.onChat m1 with
    | error e => rw [ha] at hv; cases hv
    | ok a =>
      rw [ha] at hv
      simp only at hv
      cases hb : a.onChat m2 with
      | error e => rw [hb] at hv; cases hv
      | ok b1 =>
        rw [hb] at hv
        cases hv
        have hca : c ∈ a.clients := (Hub.chatOver_sublist a.clients hb).subset hc
        have hch : c ∈ h.clients := (Hub.chatOver_sublist h.clients ha).subset hca
        have hta : (a.heap c).threadID = m1.ThreadID := by
          rw [← Hub.onChat_threadID hb c]; exact ht
        have hth : (h.heap c).threadID = m1.ThreadID := by
          rw [← Hub.onChat_threadID ha c]; exact hta
        have hl : (h.heap c).send.buf.length < (h.heap c).send.cap := by
          by_contra k
          exact (Hub.onChat_full ha c hch hth (not_lt.mp k)).1 hca
        have e1 := (Hub.onChat_room ha c hch hth hl).2
        have hl2 : (a.heap c).send.buf.length < (a.heap c).send.cap := by
          by_contra k
          exact (Hub.onChat_full hb c hca (hta.trans hsame) (not_lt.mp k)).1 hc
        have e2 := (Hub.onChat_room hb c hca (hta.trans hsame) hl2).2
        have hbuf : (b.heap c).send.buf = (h.heap c).send.buf ++ [m1, m2] := by
          rw [e2, e1]
          simp
        refine ⟨hch, hbuf, ?_, ?_⟩
        · rw [hbuf]
          simp
        · rw [hbuf]
          have : (h.heap c).send.buf ++ [m1, m2] = ((h.heap c).send.buf ++ [m1]) ++ [m2] := by
            simp
          rw [this, List.dropLast_concat, List.getLast?_concat]

/-- C18 on the sample hub: after two thread-7 broadcasts client 0 is still
registered and its queue ends with the first message followed by the second. -/
theorem broadcast_order_preserved_witness :
    ∃ b, sampleHub.Run [.chat samplePost, .chat { samplePost with ID := 2 }] = .ok b ∧
      0 ∈ b.clients ∧
      (b.heap 0).send.buf = [samplePost, { samplePost with ID := 2 }] := by
  obtain ⟨b, hv⟩ := (broadcast_order_preserved sampleHub samplePost
    { samplePost with ID := 2 } rfl).1 (fun _ _ => rfl)
  have hm : 0 ∈ b.clients := by
    have : (match sampleHub.Run [.chat samplePost, .chat { samplePost with ID := 2 }] with
        | .ok k => decide (0 ∈ k.clients) | .error _ => false) = true := by decide
    rw [hv] at this
    exact of_decide_eq_true this
  have ht : (b.heap 0).threadID = samplePost.ThreadID := by
    have : (match sampleHub.Run [.chat samplePost, .chat { samplePost with ID := 2 }] with
        | .ok k => (k.heap 0).threadID | .error _ => 0) = 7 := by decide
    rw [hv] at this
    exact this
  obtain ⟨_, e, _⟩ := (broadcast_order_preserved sampleHub samplePost
    { samplePost with ID := 2 } rfl).2 b hv 0 hm ht
  exact ⟨b, hv, hm, by rw [e]; rfl⟩

/-! ## End to end -/

/-- C19, end-to-end scenario: clients 0 and 1 (A and B) are registered on
thread 7 and client 2 (C) on thread 8, all with empty queues.  When the Reader
of client 0 reads a frame that decodes to content `hi`, thread_id 999 and
user_id 5, and the use case persists the post it is given as the post with id
1, content `hi`, thread 7 and user 5, then the use case was called with thread
id 7, the one event handed to the hub is the broadcast of exactly the
persisted post, and after the hub has processed it the queues of clients 0
and 1 each hold exactly that post while the queue of client 2 is still
empty. -/
theorem end_to_end_scenario {σ : Type} (decode : String → Except String Post)
    (uc : PostUseCase σ) (frame : String) (db db1 : σ) (createAt : Int)
    (hd : decode frame =
      .ok { ID := 0, Content := "hi", CreateAt := 0, ThreadID := 999, UserID := 5 })
    (hc : uc.CreatePost
        { ID := 0, Content := "hi", CreateAt := 0, ThreadID := 7, UserID := 5 } db =
      (.ok { ID := 1, Content := "hi", CreateAt := createAt, ThreadID := 7, UserID := 5 },
        db1)) :
    createPostArgs (readerTask decode uc 7 0 0 [.ok frame] db).1 =
      [{ ID := 0, Content := "hi", CreateAt := 0, ThreadID := 7, UserID := 5 }] ∧
    hubEvents (readerTask decode uc 7 0 0 [.ok frame] db).1 =
      [.chat { ID := 1, Content := "hi", CreateAt := createAt, ThreadID := 7, UserID := 5 }] ∧
    ∃ h1, sampleHub.Run (hubEvents (readerTask decode uc 7 0 0 [.ok frame] db).1) = .ok h1 ∧
      (h1.heap 0).send.buf =
        [{ ID := 1, Content := "hi", CreateAt := createAt, ThreadID := 7, UserID := 5 }] ∧
      (h1.heap 1).send.buf =
        [{ ID := 1, Content := "hi", CreateAt := createAt, ThreadID := 7, UserID := 5 }] ∧
      (h1.heap 2).send.buf = [] ∧
      0 ∈ h1.clients ∧ 1 ∈ h1.clients ∧ 2 ∈ h1.clients := by
  have hstamp : stampThread 7
      { ID := 0, Content := "hi", CreateAt := 0, ThreadID := 999, UserID := 5 } =
      { ID := 0, Content := "hi", CreateAt := 0, ThreadID := 7, UserID := 5 } := rfl
  have hr : (readerTask decode uc 7 0 0 [.ok frame] db).1 =
      [.createPost { ID := 0, Content := "hi", CreateAt := 0, ThreadID := 7, UserID := 5 },
        .submitChat
          { ID := 1, Content := "hi", CreateAt := createAt, ThreadID := 7, UserID := 5 }] := by
    simp only [readerTask, hd, hstamp, hc]
  rw [hr]
  refine ⟨rfl, rfl, ?_⟩
  obtain ⟨h1, hv⟩ := Hub.onChat_total sampleHub
    { ID := 1, Content := "hi", CreateAt := createAt, ThreadID := 7, UserID := 5 }
    (fun _ _ => rfl)
  have hrun : sampleHub.Run (hubEvents
      [.createPost { ID := 0, Content := "hi", CreateAt := 0, ThreadID := 7, UserID := 5 },
        .submitChat
          { ID := 1, Content := "hi", CreateAt := createAt, ThreadID := 7, UserID := 5 }]) =
      .ok h1 := by
    show sampleHub.Run [.chat
      { ID := 1, Content := "hi", CreateAt := createAt, ThreadID := 7, UserID := 5 }] = .ok h1
    simp only [Hub.Run, Hub.step, hv]
  obtain ⟨a0, b0⟩ := Hub.onChat_room hv 0 (by decide) rfl (by decide)
  obtain ⟨a1, b1⟩ := Hub.onChat_room hv 1 (by decide) rfl (by decide)
  have h8 : (8 : Int) ≠ 7 := by decide
  obtain ⟨a2, b2⟩ := Hub.onChat_other hv 2 (Or.inr h8)
  refine ⟨h1, hrun, by rw [b0]; rfl, by rw [b1]; rfl, by rw [a2]; rfl, a0, a1,
    b2.mpr (by decide)⟩

/-- C19 with the sample decoder and the sample use case, whose storage gives
the first persisted post the id 1. -/
theorem end_to_end_scenario_witness :
    hubEvents (readerTask sampleDecode sampleUseCase 7 0 0 [.ok "hi"] 0).1 =
      [.chat { ID := 1, Content := "hi", CreateAt := 0, ThreadID := 7, UserID := 5 }] ∧
    ∃ h1, sampleHub.Run
        (hubEvents (readerTask sampleDecode sampleUseCase 7 0 0 [.ok "hi"] 0).1) = .ok h1 ∧
      (h1.heap 0).send.buf =
        [{ ID := 1, Content := "hi", CreateAt := 0, ThreadID := 7, UserID := 5 }] ∧
      (h1.heap 1).send.buf =
        [{ ID := 1, Content := "hi", CreateAt := 0, ThreadID := 7, UserID := 5 }] ∧
      (h1.heap 2).send.buf = [] :=
  have h := end_to_end_scenario sampleDecode sampleUseCase "hi" 0 1 0 rfl rfl
  ⟨h.2.1, h.2.2.imp (fun _ k => ⟨k.1, k.2.1, k.2.2.1, k.2.2.2.1⟩)⟩

/-! ## Claims on the use cases -/

/-- A string has no bytes exactly when it is the empty string. -/
theorem len_eq_zero (s : String) : len s = 0 ↔ s = "" := by
  cases s with
  | mk l =>
    cases l with
    | nil => simp [len, String.utf8ByteSize, String.utf8ByteSize.go]
    | cons c cs =>
      have := Char.utf8Size_pos c
      simp only [len, String.utf8ByteSize, String.utf8ByteSize.go]
      constructor
      · intro h
        omega
      · intro h
        exact absurd h (by simp [String.ext_iff])

/-- The string of `n` letters `a` has `n` bytes. -/
theorem len_replicate (n : Nat) : len (String.mk (List.replicate n 'a')) = n := by
  have key : ∀ k, String.utf8ByteSize.go (List.replicate k 'a') = k := by
    intro k
    induction k with
    | zero => rfl
    | succ j ih =>
      rw [List.replicate_succ, String.utf8ByteSize.go, ih]
      rfl
  exact key n

/-- C21, `PUseCase.CreatePost` validates content before touching storage: for
a post whose content is empty or longer than 5000 bytes it returns the zero
post with a non-nil error, makes no repository call (neither `CreatePost` nor
`LinkPostToChat`) and leaves storage as it was.  For a post whose content has
1 to 5000 bytes the repository's `CreatePost` is called with that post, as
the first call and on the storage state given: when that call returns an
error, `CreatePost` returns the zero post with that error and the storage
state the call left, after this one call; when it returns `created` with a
nil error, `LinkPostToChat` is called next on the storage state it left, and
the result is `created` or the zero post with the link error. -/
theorem createPost_validates {σ : Type} (repo : ForumRepository σ) (post : Post) (db : σ) :
    ((len post.Content = 0 ∨ len post.Content > 5000) →
      (PUseCase.CreatePost repo post db).1.1 = zeroPost ∧
      (PUseCase.CreatePost repo post db).1.2 ≠ none ∧
      (PUseCase.CreatePost repo post db).2.1 = [] ∧
      (PUseCase.CreatePost repo post db).2.2 = db) ∧
    ((1 ≤ len post.Content ∧ len post.Content ≤ 5000) →
      (PUseCase.CreatePost repo post db).2.1.head? = some (.CreatePost post) ∧
      (∀ returned err db1, repo.CreatePost post db = ((returned, some err), db1) →
        PUseCase.CreatePost repo post db =
          ((zeroPost, some err), [.CreatePost post], db1)) ∧
      (∀ created db1 lerr db2, repo.CreatePost post db = ((created, none), db1) →
        repo.LinkPostToChat
          { ThreadID := post.ThreadID, UserID := post.UserID, PostID := created.ID } db1 =
          (lerr, db2) →
        (PUseCase.CreatePost repo post db).2 =
          ([.CreatePost post,
            .LinkPostToChat
              { ThreadID := post.ThreadID, UserID := post.UserID, PostID := created.ID }],
            db2) ∧
        (lerr = none → (PUseCase.CreatePost repo post db).1 = (created, none)) ∧
        (∀ e, lerr = some e →
          (PUseCase.CreatePost repo post db).1 =
            (zeroPost, some ("Ошибка создания поста в чат: " ++ e))))) := by
  constructor
  · intro hbad
    have hc : post.Content = "" ∨ len post.Content > 5000 :=
      hbad.imp (fun k => (len_eq_zero _).mp k) (fun k => k)
    have e : PUseCase.CreatePost repo post db =
        ((zeroPost, some "Недопустимый размер описания! Описание == 0 || > 5000"), [], db) := by
      simp only [PUseCase.CreatePost, if_pos hc]
    rw [e]
    exact ⟨rfl, by simp, rfl, rfl⟩
  · rintro ⟨h1, h2⟩
    have hc : ¬ (post.Content = "" ∨ len post.Content > 5000) := by
      rintro (k | k)
      · have := (len_eq_zero _).mpr k
        omega
      · omega
    refine ⟨?_, ?_, ?_⟩
    · simp only [PUseCase.CreatePost, if_neg hc]
      rcases hr : repo.CreatePost post db with ⟨⟨created, err⟩, db1⟩
      cases err with
      | some e => rfl
      | none =>
        simp only
        rcases hl : repo.LinkPostToChat
          { ThreadID := post.ThreadID, UserID := post.UserID, PostID := created.ID } db1
          with ⟨err2, db2⟩
        cases err2 <;> rfl
    · intro returned err db1 hr
      simp only [PUseCase.CreatePost, if_neg hc, hr]
    · intro created db1 lerr db2 hr hl
      cases lerr with
      | none =>
        have e : PUseCase.CreatePost repo post db =
            ((created, none),
              [.CreatePost post,
                .LinkPostToChat
                  { ThreadID := post.ThreadID, UserID := post.UserID,
                    PostID := created.ID }], db2) := by
          simp only [PUseCase.CreatePost, if_neg hc, hr, hl]
        rw [e]
        exact ⟨rfl, fun _ => rfl, fun e1 h => (by cases h)⟩
      | some e0 =>
        have e : PUseCase.CreatePost repo post db =
            ((zeroPost, some ("Ошибка создания поста в чат: " ++ e0)),
              [.CreatePost post,
                .LinkPostToChat
                  { ThreadID := post.ThreadID, UserID := post.UserID,
                    PostID := created.ID }], db2) := by
          simp only [PUseCase.CreatePost, if_neg hc, hr, hl]
        rw [e]
        refine ⟨rfl, fun h => (by cases h), fun e1 h => ?_⟩
        cases h
        rfl

/-- C21 on a post with empty content, on a valid post with a repository that
persists it under the id 1, and on a valid post with a repository whose
`CreatePost` fails. -/
theorem createPost_validates_witness :
    PUseCase.CreatePost okRepo { validPost with Content := "" } () =
      ((zeroPost, some "Недопустимый размер описания! Описание == 0 || > 5000"), [], ()) ∧
    (PUseCase.CreatePost okRepo validPost ()).2.1.head? = some (.CreatePost validPost) ∧
    (PUseCase.CreatePost okRepo validPost ()).1 = ({ validPost with ID := 1 }, none) ∧
    PUseCase.CreatePost failingPostRepo validPost () =
      ((zeroPost, some "database is locked"), [.CreatePost validPost], ()) :=
  ⟨by decide,
    ((createPost_validates okRepo validPost ()).2 ⟨by decide, by decide⟩).1,
    (((createPost_validates okRepo validPost ()).2 ⟨by decide, by decide⟩).2.2
      { validPost with ID := 1 } () none () rfl rfl).2.1 rfl,
    ((createPost_validates failingPostRepo validPost ()).2 ⟨by decide, by decide⟩).2.1
      zeroPost "database is locked" () rfl⟩

/-- C22, `PUseCase.CreatePost` success: for a post with valid content, when the
repository's `CreatePost` returns `created` with a nil error and
`LinkPostToChat` returns a nil error, `CreatePost` returns exactly `created`
with a nil error, and the repository calls are `CreatePost` with the post
followed by one `LinkPostToChat` with the chat record of the post's thread,
the post's user and the id of `created`. -/
theorem createPost_success {σ : Type} (repo : ForumRepository σ) (post created : Post)
    (db db1 db2 : σ) (hv : 1 ≤ len post.Content ∧ len post.Content ≤ 5000)
    (hc : repo.CreatePost post db = ((created, none), db1))
    (hl : repo.LinkPostToChat
      { ThreadID := post.ThreadID, UserID := post.UserID, PostID := created.ID } db1 =
        (none, db2)) :
    PUseCase.CreatePost repo post db =
      ((created, none),
        [.CreatePost post,
          .LinkPostToChat
            { ThreadID := post.ThreadID, UserID := post.UserID, PostID := created.ID }],
        db2) := by
  have hcond : ¬ (post.Content = "" ∨ len post.Content > 5000) := by
    rintro (k | k)
    · have := (len_eq_zero _).mpr k
      omega
    · omega
  simp only [PUseCase.CreatePost, if_neg hcond, hc, hl]

/-- C22 on the valid post and a repository that gives it the id 1. -/
theorem createPost_success_witness :
    PUseCase.CreatePost okRepo validPost () =
      (({ validPost with ID := 1 }, none),
        [.CreatePost validPost, .LinkPostToChat { ThreadID := 1, UserID := 1, PostID := 1 }],
        ()) :=
  createPost_success okRepo validPost { validPost with ID := 1 } () () ()
    ⟨by decide, by decide⟩ rfl rfl

/-- C23 as stated fails: the valid thread passes validation, the repository's
`CreateThread` fails, and `CreateThread` returns the zero thread with a
non-nil error instead of a nil error. -/
theorem createThread_counterexample :
    TUseCase.CreateThread failingRepo validThread () =
      ((zeroThread, some "database is locked"), [.CreateThread validThread], ()) := by
  decide

/-- C23 amended: for a thread whose title or content is empty `CreateThread`
returns the zero thread with a non-nil error and makes no repository call; a
thread with content of 1 to 5000 bytes and a title of 1 to 500 bytes passes
validation, and then `CreateThread` calls the repository's `CreateThread`
once with the thread and returns exactly the thread that call returned with a
nil error when the call succeeds, and the zero thread with the call's error
when it fails. -/
theorem createThread_validates {σ : Type} (repo : ForumRepository σ) (thread : Thread)
    (db : σ) :
    ((thread.Title = "" ∨ thread.Content = "") →
      (TUseCase.CreateThread repo thread db).1.1 = zeroThread ∧
      (TUseCase.CreateThread repo thread db).1.2 ≠ none ∧
      (TUseCase.CreateThread repo thread db).2.1 = [] ∧
      (TUseCase.CreateThread repo thread db).2.2 = db) ∧
    ((1 ≤ len thread.Content ∧ len thread.Content ≤ 5000 ∧
        1 ≤ len thread.Title ∧ len thread.Title ≤ 500) →
      (∀ created db1, repo.CreateThread thread db = ((created, none), db1) →
        TUseCase.CreateThread repo thread db =
          ((created, none), [.CreateThread thread], db1)) ∧
      (∀ returned err db1, repo.CreateThread thread db = ((returned, some err), db1) →
        TUseCase.CreateThread repo thread db =
          ((zeroThread, some err), [.CreateThread thread], db1))) := by
  constructor
  · intro hbad
    unfold TUseCase.CreateThread
    by_cases hc : thread.Content = "" ∨ len thread.Content > 5000
    · rw [if_pos hc]
      exact ⟨rfl, by simp, rfl, rfl⟩
    · have ht : thread.Title = "" ∨ len thread.Title > 500 :=
        Or.inl (hbad.resolve_right (fun k => hc (Or.inl k)))
      rw [if_neg hc, if_pos ht]
      exact ⟨rfl, by simp, rfl, rfl⟩
  · rintro ⟨h1, h2, h3, h4⟩
    have hc : ¬ (thread.Content = "" ∨ len thread.Content > 5000) := by
      rintro (k | k)
      · have := (len_eq_zero _).mpr k
        omega
      · omega
    have ht : ¬ (thread.Title = "" ∨ len thread.Title > 500) := by
      rintro (k | k)
      · have := (len_eq_zero _).mpr k
        omega
      · omega
    constructor
    · intro created db1 hr
      simp only [TUseCase.CreateThread, if_neg hc, if_neg ht, hr]
    · intro returned err db1 hr
      simp only [TUseCase.CreateThread, if_neg hc, if_neg ht, hr]

/-- C23 amended, on the valid thread and a repository that gives it the id 1,
and on a thread with an empty title. -/
theorem createThread_validates_witness :
    TUseCase.CreateThread okRepo validThread () =
      (({ validThread with ID := 1 }, none), [.CreateThread validThread], ()) ∧
    (TUseCase.CreateThread okRepo { validThread with Title := "" } ()).2.1 = [] :=
  ⟨((createThread_validates okRepo validThread ()).2
      ⟨by decide, by decide, by decide, by decide⟩).1 { validThread with ID := 1 } () rfl,
    ((createThread_validates okRepo { validThread with Title := "" } ()).1
      (Or.inl rfl)).2.2.1⟩

/-- A thread with valid content whose title has more than 500 bytes is
rejected without a repository call. -/
theorem createThread_title_over_500 {σ : Type} (repo : ForumRepository σ) (thread : Thread)
    (db : σ) (hc : 1 ≤ len thread.Content ∧ len thread.Content ≤ 5000)
    (ht : 500 < len thread.Title) :
    TUseCase.CreateThread repo thread db =
      ((zeroThread, some "Недопустимый размер заголовка! Заголовк == 0 || > 1000"), [],
        db) := by
  have hc1 : ¬ (thread.Content = "" ∨ len thread.Content > 5000) := by
    rintro (k | k)
    · have := (len_eq_zero _).mpr k
      omega
    · omega
  have ht1 : thread.Title = "" ∨ len thread.Title > 500 := Or.inr ht
  simp only [TUseCase.CreateThread, if_neg hc1, if_pos ht1]

/-- C24 fails on the code: a thread with valid content and a title of 501
bytes, which is within the 1 to 1000 bytes the error message states, is
rejected for its title size with the zero thread, the error whose text names
the limit 1000, and no repository call. -/
theorem createThread_rejects_title_501 :
    len longTitleThread.Title = 501 ∧
    (1 ≤ len longTitleThread.Content ∧ len longTitleThread.Content ≤ 5000) ∧
    TUseCase.CreateThread okRepo longTitleThread () =
      ((zeroThread, some "Недопустимый размер заголовка! Заголовк == 0 || > 1000"), [],
        ()) := by
  have hl : len longTitleThread.Title = 501 := len_replicate 501
  have hc : 1 ≤ len longTitleThread.Content ∧ len longTitleThread.Content ≤ 5000 :=
    ⟨by decide, by decide⟩
  exact ⟨hl, hc, createThread_title_over_500 okRepo longTitleThread () hc (by rw [hl]; decide)⟩

/-- C25, `TUseCase.DeleteThreadByID` enforces permissions: when
`GetThreadByID` fails, or `CheckUserByID` on the stored thread returns false
or an error, it returns a non-nil error and the repository's
`DeleteThreadByID` is not called; when `CheckUserByID` returns true with a
nil error the repository's `DeleteThreadByID` is called with the id and its
result is returned; and in every case a call of the repository's delete is a
call with that id made after `CheckUserByID` returned true with a nil error. -/
theorem deleteThread_permissions {σ : Type} (repo : ForumRepository σ) (id userID : Int)
    (db : σ) :
    (∀ t err db1, repo.GetThreadByID id db = ((t, some err), db1) →
      (TUseCase.DeleteThreadByID repo id userID db).1 ≠ none ∧
      ∀ x, RepoCall.DeleteThreadByID x ∉ (TUseCase.DeleteThreadByID repo id userID db).2.1) ∧
    (∀ t db1 valid err db2, repo.GetThreadByID id db = ((t, none), db1) →
      repo.CheckUserByID (.thread t) userID db1 = ((valid, err), db2) →
      (valid = false ∨ err ≠ none) →
      (TUseCase.DeleteThreadByID repo id userID db).1 ≠ none ∧
      ∀ x, RepoCall.DeleteThreadByID x ∉ (TUseCase.DeleteThreadByID repo id userID db).2.1) ∧
    (∀ t db1 db2, repo.GetThreadByID id db = ((t, none), db1) →
      repo.CheckUserByID (.thread t) userID db1 = ((true, none), db2) →
      TUseCase.DeleteThreadByID repo id userID db =
        ((repo.DeleteThreadByID id db2).1,
          [.GetThreadByID id, .CheckUserByID (.thread t) userID, .DeleteThreadByID id],
          (repo.DeleteThreadByID id db2).2)) ∧
    (∀ x, RepoCall.DeleteThreadByID x ∈ (TUseCase.DeleteThreadByID repo id userID db).2.1 →
      x = id ∧ ∃ t db1 db2, repo.GetThreadByID id db = ((t, none), db1) ∧
        repo.CheckUserByID (.thread t) userID db1 = ((true, none), db2)) := by
  refine ⟨?_, ?_, ?_, ?_⟩
  · intro t err db1 hg
    simp only [TUseCase.DeleteThreadByID, hg]
    exact ⟨by simp, fun x hx => by simp at hx⟩
  · intro t db1 valid err db2 hg hc hbad
    simp only [TUseCase.DeleteThreadByID, hg, hc]
    cases valid with
    | false => exact ⟨by simp, fun x hx => by simp at hx⟩
    | true =>
      cases err with
      | none =>
        rcases hbad with k | k
        · cases k
        · exact absurd rfl k
      | some e => exact ⟨by simp, fun x hx => by simp at hx⟩
  · intro t db1 db2 hg hc
    simp only [TUseCase.DeleteThreadByID, hg, hc]
    rfl
  · intro x hx
    rcases hg : repo.GetThreadByID id db with ⟨⟨t, gerr⟩, db1⟩
    cases gerr with
    | some e =>
      simp [TUseCase.DeleteThreadByID, hg] at hx
    | none =>
      rcases hc : repo.CheckUserByID (.thread t) userID db1 with ⟨⟨valid, cerr⟩, db2⟩
      cases valid with
      | false => simp [TUseCase.DeleteThreadByID, hg, hc] at hx
      | true =>
        cases cerr with
        | some e => simp [TUseCase.DeleteThreadByID, hg, hc] at hx
        | none =>
          simp [TUseCase.DeleteThreadByID, hg, hc] at hx
          exact ⟨hx, t, db1, db2, rfl, hc⟩

/-- C25 on a repository that allows the owner: user 1 deletes thread 5, user
2 is refused and the repository's delete is not called. -/
theorem deleteThread_permissions_witness :
    TUseCase.DeleteThreadByID okRepo 5 1 () =
      (none, [.GetThreadByID 5,
        .CheckUserByID (.thread { zeroThread with ID := 5, UserID := 1 }) 1,
        .DeleteThreadByID 5], ()) ∧
    (TUseCase.DeleteThreadByID okRepo 5 2 ()).1 ≠ none ∧
    RepoCall.DeleteThreadByID 5 ∉ (TUseCase.DeleteThreadByID okRepo 5 2 ()).2.1 := by
  obtain ⟨_, h2, h3, _⟩ := deleteThread_permissions okRepo 5 1 ()
  obtain ⟨_, k2, _, _⟩ := deleteThread_permissions okRepo 5 2 ()
  have a := h3 { zeroThread with ID := 5, UserID := 1 } () () rfl rfl
  have b := k2 { zeroThread with ID := 5, UserID := 1 } () false none () rfl rfl (Or.inl rfl)
  exact ⟨a, b.1, b.2 5⟩

/-- C26, `PUseCase.DeletePostByID` enforces permissions: when `GetPostByID`
fails, or `CheckUserByID` on the stored post returns false (also with a nil
error) or an error, it returns a non-nil error and the repository's
`DeletePostByID` is not called; the repository's delete is called only after
`CheckUserByID` returned true with a nil error, and then with the id and with
its result returned. -/
theorem deletePost_permissions {σ : Type} (repo : ForumRepository σ) (id userID : Int)
    (db : σ) :
    (∀ q err db1, repo.GetPostByID id db = ((q, some err), db1) →
      (PUseCase.DeletePostByID repo id userID db).1 ≠ none ∧
      ∀ x, RepoCall.DeletePostByID x ∉ (PUseCase.DeletePostByID repo id userID db).2.1) ∧
    (∀ q db1 valid err db2, repo.GetPostByID id db = ((q, none), db1) →
      repo.CheckUserByID (.post q) userID db1 = ((valid, err), db2) →
      (valid = false ∨ err ≠ none) →
      (PUseCase.DeletePostByID repo id userID db).1 ≠ none ∧
      ∀ x, RepoCall.DeletePostByID x ∉ (PUseCase.DeletePostByID repo id userID db).2.1) ∧
    (∀ q db1 db2, repo.GetPostByID id db = ((q, none), db1) →
      repo.CheckUserByID (.post q) userID db1 = ((true, none), db2) →
      PUseCase.DeletePostByID repo id userID db =
        ((repo.DeletePostByID id db2).1,
          [.GetPostByID id, .CheckUserByID (.post q) userID, .DeletePostByID id],
          (repo.DeletePostByID id db2).2)) ∧
    (∀ x, RepoCall.DeletePostByID x ∈ (PUseCase.DeletePostByID repo id userID db).2.1 →
      x = id ∧ ∃ q db1 db2, repo.GetPostByID id db = ((q, none), db1) ∧
        repo.CheckUserByID (.post q) userID db1 = ((true, none), db2)) := by
  refine ⟨?_, ?_, ?_, ?_⟩
  · intro q err db1 hg
    simp only [PUseCase.DeletePostByID, hg]
    exact ⟨by simp, fun x hx => by simp at hx⟩
  · intro q db1 valid err db2 hg hc hbad
    simp only [PUseCase.DeletePostByID, hg, hc]
    cases valid with
    | false => exact ⟨by simp, fun x hx => by simp at hx⟩
    | true =>
      cases err with
      | none =>
        rcases hbad with k | k
        · cases k
        · exact absurd rfl k
      | some e => exact ⟨by simp, fun x hx => by simp at hx⟩
  · intro q db1 db2 hg hc
    simp only [PUseCase.DeletePostByID, hg, hc]
    rfl
  · intro x hx
    rcases hg : repo.GetPostByID id db with ⟨⟨q, gerr⟩, db1⟩
    cases gerr with
    | some e =>
      simp [PUseCase.DeletePostByID, hg] at hx
    | none =>
      rcases hc : repo.CheckUserByID (.post q) userID db1 with ⟨⟨valid, cerr⟩, db2⟩
      cases valid with
      | false => simp [PUseCase.DeletePostByID, hg, hc] at hx
      | true =>
        cases cerr with
        | some e => simp [PUseCase.DeletePostByID, hg, hc] at hx
        | none =>
          simp [PUseCase.DeletePostByID, hg, hc] at hx
          exact ⟨hx, q, db1, db2, rfl, hc⟩

/-- C26 on a repository that allows the owner: user 2 is refused with a
non-nil error although `CheckUserByID` returned false with a nil error, and
the repository's delete is not called; user 1 deletes the post. -/
theorem deletePost_permissions_witness :
    (PUseCase.DeletePostByID okRepo 5 2 ()).1 = some "Нет прав: %!w(<nil>)" ∧
    RepoCall.DeletePostByID 5 ∉ (PUseCase.DeletePostByID okRepo 5 2 ()).2.1 ∧
    PUseCase.DeletePostByID okRepo 5 1 () =
      (none, [.GetPostByID 5, .CheckUserByID (.post { zeroPost with ID := 5, UserID := 1 }) 1,
        .DeletePostByID 5], ()) := by
  obtain ⟨_, h2, _, _⟩ := deletePost_permissions okRepo 5 2 ()
  obtain ⟨_, _, k3, _⟩ := deletePost_permissions okRepo 5 1 ()
  have b := h2 { zeroPost with ID := 5, UserID := 1 } () false none () rfl rfl (Or.inl rfl)
  exact ⟨by decide, b.2 5, k3 { zeroPost with ID := 5, UserID := 1 } () () rfl rfl⟩

/-- C27, decision rule of `forumRepository.CheckUserByID`: when the query
finds a user row, the result is true with a nil error if and only if the
row's role is `admin` or the row's id equals the entity's `USER_ID()`; and
whatever the query returns (a missing row included), a result other than true
with a nil error is false with a non-nil error, so false with a nil error is
never returned. -/
theorem checkUser_decision {σ : Type} (f : forumRepository σ) (any : Entity) (id : Int)
    (db : σ) :
    (∀ user, f.queryUser id db = .ok user →
      (f.CheckUserByID any id db = (true, none) ↔
        user.Role = "admin" ∨ user.ID = any.USER_ID)) ∧
    (f.CheckUserByID any id db ≠ (true, none) →
      ∃ err, f.CheckUserByID any id db = (false, some err)) ∧
    (∀ err, f.queryUser id db = .error err → f.CheckUserByID any id db = (false, some err)) ∧
    f.CheckUserByID any id db ≠ (false, none) := by
  refine ⟨?_, ?_, ?_, ?_⟩
  · intro user hq
    simp only [forumRepository.CheckUserByID, hq]
    by_cases hr : user.Role = "admin"
    · simp [hr]
    · by_cases hi : user.ID = any.USER_ID
      · simp [hr, hi]
      · simp [hr, hi]
  · intro hne
    cases hq : f.queryUser id db with
    | error e => exact ⟨e, by simp only [forumRepository.CheckUserByID, hq]⟩
    | ok user =>
      simp only [forumRepository.CheckUserByID, hq] at hne ⊢
      by_cases hr : user.Role = "admin"
      · simp [hr] at hne
      · by_cases hi : user.ID = any.USER_ID
        · simp [hr, hi] at hne
        · exact ⟨_, by rw [if_neg hr, if_pos hi]⟩
  · intro err hq
    simp only [forumRepository.CheckUserByID, hq]
  · cases hq : f.queryUser id db with
    | error e => simp [forumRepository.CheckUserByID, hq]
    | ok user =>
      simp only [forumRepository.CheckUserByID, hq]
      by_cases hr : user.Role = "admin"
      · simp [hr]
      · by_cases hi : user.ID = any.USER_ID
        · simp [hr, hi]
        · simp [hr, hi]

/-- C27 on the sample tables: the owner 1 of a thread is allowed, user 2 is
refused with an error, and so is the unknown user 3. -/
theorem checkUser_decision_witness :
    tablesHandle.CheckUserByID (.thread (editBody 1)) 1 sampleTables = (true, none) ∧
    tablesHandle.CheckUserByID (.thread (editBody 1)) 2 sampleTables =
      (false, some "Нет прав: 2 1 user") ∧
    tablesHandle.CheckUserByID (.thread (editBody 1)) 3 sampleTables =
      (false, some "sql: no rows in result set") := by
  refine ⟨?_, by decide, ?_⟩
  · exact ((checkUser_decision tablesHandle (.thread (editBody 1)) 1 sampleTables).1
      { ID := 1, Name := "owner", Email := "owner@test.com", Role := "user" } rfl).mpr
      (Or.inr rfl)
  · exact (checkUser_decision tablesHandle (.thread (editBody 1)) 3 sampleTables).2.2.1
      "sql: no rows in result set" rfl

/-- C29 fails on the code: thread 10 is stored with owner 1 and user 2 is not
an admin.  For the request of user 2 whose body names user 2 as the owner,
`EditThread` answers 200 and the stored thread is changed; for the body that
differs only in naming user 1 as the owner it answers 403 and storage is
unchanged.  The decision follows the `user_ID` of the request body, not the
owner of the stored thread. -/
theorem editThread_trusts_body_owner :
    ForumHandler.EditThread sampleSqlRepo (.ok (editBody 2)) (some (.int 2)) sampleTables =
      (200, { sampleTables with
        threads := [{ ID := 10, Title := "changed", Content := "changed", CreateAt := 0,
                      UserID := 1 }] }) ∧
    ForumHandler.EditThread sampleSqlRepo (.ok (editBody 1)) (some (.int 2)) sampleTables =
      (403, sampleTables) := by
  decide

/-! ## Replay against the hub, and the order of the broadcast loop -/

/-- C28 fails on the code: client 0 is registered and its replay task has
enqueued one history post; the Reader's read fails and the hub processes the
unregister it submits, closing the queue; the next enqueue of the replay task
is then a send on a closed queue, a Go panic.  The same happens when a
broadcast evicts client 0 for overflow before the replay task's next enqueue. -/
theorem replay_send_after_unregister :
    (NewHub sampleHeap).sysRun
      [.hub (.register 0), .replaySend 0 samplePost, .hub (.unregister 0),
        .replaySend 0 samplePost] = .error .sendOnClosed ∧
    fullHub.sysRun [.hub (.chat samplePost), .replaySend 0 samplePost] =
      .error .sendOnClosed := by
  refine ⟨rfl, ?_⟩
  obtain ⟨h1, hv⟩ := Hub.onChat_total fullHub samplePost (fun _ _ => rfl)
  have hc : (h1.heap 0).send.closed = true := by
    rw [(Hub.onChat_full hv 0 (by decide) rfl (List.length_replicate 256 samplePost).ge).2]
  have hs : fullHub.step (.chat samplePost) = .ok h1 := hv
  simp only [Hub.sysRun, Hub.sysStep, hs, Hub.replaySend, Chan.trySend, hc, if_true]

/-- What the visit of `p` does to `p` depends only on the client object and
the membership of `p`. -/
theorem Hub.chatVisit_local {m : Post} {a0 a2 b0 b2 : Hub} {p : ClientPtr}
    (av : a0.chatVisit m p = .ok a2) (bv : b0.chatVisit m p = .ok b2)
    (hh : a0.heap p = b0.heap p) (hm : p ∈ a0.clients ↔ p ∈ b0.clients) :
    a2.heap p = b2.heap p ∧ (p ∈ a2.clients ↔ p ∈ b2.clients) := by
  obtain ⟨x1, x2⟩ := Hub.chatVisit_self av
  obtain ⟨y1, y2⟩ := Hub.chatVisit_self bv
  by_cases ht : (a0.heap p).threadID = m.ThreadID
  · have ht1 : (b0.heap p).threadID = m.ThreadID := by rw [← hh]; exact ht
    obtain ⟨_, xr, xf⟩ := x2 ht
    obtain ⟨_, yr, yf⟩ := y2 ht1
    by_cases hl : (a0.heap p).send.buf.length < (a0.heap p).send.cap
    · obtain ⟨u1, u2⟩ := xr hl
      obtain ⟨v1, v2⟩ := yr (by rw [← hh]; exact hl)
      exact ⟨by rw [u1, v1, hh], u2.trans (hm.trans v2.symm)⟩
    · obtain ⟨u1, u2⟩ := xf (not_lt.mp hl)
      obtain ⟨v1, v2⟩ := yf (by rw [← hh]; exact not_lt.mp hl)
      exact ⟨by rw [u1, v1, hh], ⟨fun q => absurd q u2, fun q => absurd q v2⟩⟩
  · have ht1 : (b0.heap p).threadID ≠ m.ThreadID := by rw [← hh]; exact ht
    rw [x1 ht, y1 ht1]
    exact ⟨hh, hm⟩

/-- Two broadcast loops over the same state that visit the same clients, in
whatever orders, leave every client the same. -/
theorem Hub.chatOver_local {m : Post} {o1 o2 : List ClientPtr} {h h1 k1 : Hub}
    (n1 : o1.Nodup) (n2 : o2.Nodup) (hv : Hub.chatOver m o1 h = .ok h1)
    (kv : Hub.chatOver m o2 h = .ok k1) (p : ClientPtr) (hp : p ∈ o1 ↔ p ∈ o2) :
    h1.heap p = k1.heap p ∧ (p ∈ h1.clients ↔ p ∈ k1.clients) := by
  by_cases hp1 : p ∈ o1
  · obtain ⟨a0, a2, e1, e2, e3, e4, e5⟩ := Hub.chatOver_visit o1 hv n1 hp1
    obtain ⟨b0, b2, f1, f2, f3, f4, f5⟩ := Hub.chatOver_visit o2 kv n2 (hp.mp hp1)
    obtain ⟨x, y⟩ := Hub.chatVisit_local e3 f3 (e1.trans f1.symm) (e2.trans f2.symm)
    exact ⟨e4.trans (x.trans f4.symm), e5.trans (y.trans f5.symm)⟩
  · have hp2 : p ∉ o2 := fun q => hp1 (hp.mpr q)
    obtain ⟨x1, y1⟩ := Hub.chatOver_frame o1 hv hp1
    obtain ⟨x2, y2⟩ := Hub.chatOver_frame o2 kv hp2
    exact ⟨x1.trans x2.symm, y1.trans y2.symm⟩

/-- A broadcast loop that completes found the queue of every visited client
of the message's thread open. -/
theorem Hub.chatOver_open {m : Post} {order : List ClientPtr} {h h1 : Hub}
    (hv : Hub.chatOver m order h = .ok h1) (hn : order.Nodup) (p : ClientPtr)
    (hp : p ∈ order) (ht : (h.heap p).threadID = m.ThreadID) : h.isOpen p := by
  obtain ⟨h0, h2, e1, _, e3, _, _⟩ := Hub.chatOver_visit order hv hn hp
  have := ((Hub.chatVisit_self e3).2 (by rw [e1]; exact ht)).1
  rw [e1] at this
  exact this

/-- C30, broadcast is independent of the registry iteration order: for every
hub state and message, the broadcast loop run over any two enumerations of
the registered connections gives the same result: the same hub state when it
completes, the same panic when it does not. -/
theorem broadcast_order_independent (h : Hub) (m : Post) (o1 o2 : List ClientPtr)
    (p1 : o1.Perm h.clients) (p2 : o2.Perm h.clients) :
    Hub.chatOver m o1 h = Hub.chatOver m o2 h := by
  have n1 : o1.Nodup := p1.nodup_iff.mpr h.nodup
  have n2 : o2.Nodup := p2.nodup_iff.mpr h.nodup
  have hmem : ∀ p, p ∈ o1 ↔ p ∈ o2 := fun p => p1.mem_iff.trans p2.mem_iff.symm
  cases r1 : Hub.chatOver m o1 h with
  | error e1 =>
    have he1 : e1 = .sendOnClosed := Hub.chatOver_error o1 r1
    subst he1
    cases r2 : Hub.chatOver m o2 h with
    | error e2 =>
      have he2 : e2 = .sendOnClosed := Hub.chatOver_error o2 r2
      subst he2
      rfl
    | ok k1 =>
      obtain ⟨x, hx⟩ := Hub.chatOver_total o1 h n1
        (fun c hc ht => Hub.chatOver_open r2 n2 c ((hmem c).mp hc) ht)
      rw [r1] at hx
      cases hx
  | ok h1 =>
    cases r2 : Hub.chatOver m o2 h with
    | error e2 =>
      obtain ⟨x, hx⟩ := Hub.chatOver_total o2 h n2
        (fun c hc ht => Hub.chatOver_open r1 n1 c ((hmem c).mpr hc) ht)
      rw [r2] at hx
      cases hx
    | ok k1 =>
      have key := fun p => Hub.chatOver_local n1 n2 r1 r2 p (hmem p)
      rw [Hub.ext_of (sublist_ext (Hub.chatOver_sublist o1 r1) (Hub.chatOver_sublist o2 r2)
        h.nodup (fun p => (key p).2)) (fun p => (key p).1)]

/-- C30 on the hub whose client 0 has a full queue: visiting client 1 before
client 0 gives the same result as the order of the registry. -/
theorem broadcast_order_independent_witness :
    Hub.chatOver samplePost [1, 0] fullHub = fullHub.onChat samplePost :=
  broadcast_order_independent fullHub samplePost [1, 0] fullHub.clients
    (List.Perm.swap 0 1 []) (List.Perm.refl _)

end Forum
